import Mathlib

/-!
Verification of the Texas tax-sale scraper scripts.

This file shallowly embeds the data model and the operations of the
scraper repository (the `lgb-scrape-NoMetro.js` orchestrator and its
`part_004` near-duplicate, the `part_000` lien-enrichment script and the
`texasfile_enrichment.js` statewide variant) and proves or refutes the
specification's claims about them.

Modelling conventions:
* JSON values are the inductive `Json` below; `Option Json` models a
  possibly-`undefined` value (`none` is `undefined`, `some .null` is `null`).
* JS string operations (`trim`, `toUpperCase`, regex replaces) are embedded
  as explicit functions over `List Char`.
* Network calls are oracles (`Nat → ...` functions supplying each page or
  each attempt's response); loops that the source writes as `while (true)`
  are embedded with an explicit fuel argument, `none` meaning the script
  would still be looping after that many iterations.
* Fallible JS code (property access on `null`/`undefined`, calling string
  methods on non-strings) is embedded in `Except Unit`.
-/

set_option maxHeartbeats 1600000
set_option maxRecDepth 8192

/-- JSON values as handled by the scripts. Numbers are restricted to
integers, which is all the embedded code paths construct or compare. -/
inductive Json where
  | null
  | bool (b : Bool)
  | num (n : Int)
  | str (s : String)
  | arr (xs : List Json)
  | obj (fields : List (String × Json))

/-- Property lookup on a JS object literal: first field with the key wins
(the scripts only build objects with distinct keys). -/
def lookupField : List (String × Json) → String → Option Json
  | [], _ => none
  | (k, v) :: rest, key => if k = key then some v else lookupField rest key

/-- JS truthiness of a possibly-undefined value (`none` is `undefined`). -/
def truthy : Option Json → Bool
  | none => false
  | some .null => false
  | some (.bool b) => b
  | some (.num n) => n != 0
  | some (.str s) => s != ""
  | some (.arr _) => true
  | some (.obj _) => true

/-- Models `a?.b`: optional chaining gives `undefined` on `null`/`undefined`,
the field on objects, `undefined` on other values. -/
def jsGetOpt : Option Json → String → Option Json
  | none, _ => none
  | some .null, _ => none
  | some (.obj fs), key => lookupField fs key
  | some _, _ => none

/-- Models `a.b`: plain property access, which throws a `TypeError` on
`null`/`undefined` receivers. -/
def jsGet : Option Json → String → Except Unit (Option Json)
  | none, _ => .error ()
  | some .null, _ => .error ()
  | some (.obj fs), key => .ok (lookupField fs key)
  | some _, _ => .ok none

/-- Whitespace characters recognized by the scripts' `\s` regexes and
`String.prototype.trim` (ASCII subset; the scripts' data is ASCII). -/
def jsWs (c : Char) : Bool :=
  c = ' ' || c = '\t' || c = '\n' || c = '\r' || c = '\x0b' || c = '\x0c'

/-- ASCII model of `String.prototype.toUpperCase`. -/
def jsToUpper (c : Char) : Char :=
  match c with
  | 'a' => 'A' | 'b' => 'B' | 'c' => 'C' | 'd' => 'D' | 'e' => 'E' | 'f' => 'F'
  | 'g' => 'G' | 'h' => 'H' | 'i' => 'I' | 'j' => 'J' | 'k' => 'K' | 'l' => 'L'
  | 'm' => 'M' | 'n' => 'N' | 'o' => 'O' | 'p' => 'P' | 'q' => 'Q' | 'r' => 'R'
  | 's' => 'S' | 't' => 'T' | 'u' => 'U' | 'v' => 'V' | 'w' => 'W' | 'x' => 'X'
  | 'y' => 'Y' | 'z' => 'Z'
  | other => other

/-- ASCII model of `String.prototype.toLowerCase`. -/
def jsToLower (c : Char) : Char :=
  match c with
  | 'A' => 'a' | 'B' => 'b' | 'C' => 'c' | 'D' => 'd' | 'E' => 'e' | 'F' => 'f'
  | 'G' => 'g' | 'H' => 'h' | 'I' => 'i' | 'J' => 'j' | 'K' => 'k' | 'L' => 'l'
  | 'M' => 'm' | 'N' => 'n' | 'O' => 'o' | 'P' => 'p' | 'Q' => 'q' | 'R' => 'r'
  | 'S' => 's' | 'T' => 't' | 'U' => 'u' | 'V' => 'v' | 'W' => 'w' | 'X' => 'x'
  | 'Y' => 'y' | 'Z' => 'z'
  | other => other

/-- `s.toUpperCase()`. -/
def jsUpperStr (s : String) : String := ⟨s.data.map jsToUpper⟩

/-- `s.toLowerCase()`. -/
def jsLowerStr (s : String) : String := ⟨s.data.map jsToLower⟩

/-- `s.trim()` on character lists. -/
def trimChars (l : List Char) : List Char :=
  ((l.dropWhile jsWs).reverse.dropWhile jsWs).reverse

/-- `s.trim()`. -/
def jsTrim (s : String) : String := ⟨trimChars s.data⟩

/-- `text.includes(pat)` on character lists. -/
def containsSub (pat : List Char) : List Char → Bool
  | [] => pat.isEmpty
  | c :: rest => pat.isPrefixOf (c :: rest) || containsSub pat rest

/-- `s.includes(pat)`. -/
def containsStr (s pat : String) : Bool := containsSub pat.data s.data

theorem containsSub_iff (pat : List Char) (l : List Char) :
    containsSub pat l = true ↔ pat <:+: l := by
  induction l with
  | nil =>
    simp [containsSub, List.isEmpty_iff, List.infix_nil]
  | cons c rest ih =>
    simp only [containsSub, Bool.or_eq_true, List.isPrefixOf_iff_prefix, ih,
      List.infix_cons_iff]

/-- JS `Set` insertion (`set.add(x)` keeping insertion order). -/
def setAdd (l : List String) (s : String) : List String :=
  if l.contains s then l else l ++ [s]

/-- `[...new Set(names)]`: deduplicate keeping first occurrences. -/
def jsSetDedup : List String → List String
  | [] => []
  | x :: xs => x :: (jsSetDedup xs).filter (fun y => y ≠ x)

theorem mem_jsSetDedup (a : String) (l : List String) :
    a ∈ jsSetDedup l ↔ a ∈ l := by
  induction l with
  | nil => simp [jsSetDedup]
  | cons x xs ih =>
    by_cases hax : a = x
    · simp [jsSetDedup, hax]
    · simp [jsSetDedup, hax, ih]

/-- Insertion step of the model of JS `Array.prototype.sort()` (default
string comparator, stable). -/
def insertStr (x : String) : List String → List String
  | [] => [x]
  | y :: ys => if x < y then x :: y :: ys else y :: insertStr x ys

/-- Model of JS `Array.prototype.sort()` on string arrays (a stable sort by
lexicographic string order). -/
def insertionSortStr : List String → List String
  | [] => []
  | x :: xs => insertStr x (insertionSortStr xs)

theorem mem_insertStr (a x : String) (l : List String) :
    a ∈ insertStr x l ↔ a = x ∨ a ∈ l := by
  induction l with
  | nil => simp [insertStr]
  | cons y ys ih =>
    by_cases h : x < y
    · simp [insertStr, h]
    · simp only [insertStr, if_neg h, List.mem_cons, ih]
      tauto

theorem mem_insertionSortStr (a : String) (l : List String) :
    a ∈ insertionSortStr l ↔ a ∈ l := by
  induction l with
  | nil => simp [insertionSortStr]
  | cons x xs ih => simp [insertionSortStr, mem_insertStr, ih]

namespace NoMetro

/-! ## `lgb-scrape-NoMetro.js` and its `part_004` near-duplicate -/

/-- The `replace(/\s+/g, ' ')` pass: every run of whitespace becomes one
space.  The boolean records whether the previous character was part of a
whitespace run already replaced. -/
def collapseAux : Bool → List Char → List Char
  | _, [] => []
  | pw, c :: rest =>
    if jsWs c then
      if pw then collapseAux true rest else ' ' :: collapseAux true rest
    else c :: collapseAux false rest

/-- Remove `n` characters from the end. -/
def dropSuffixN (l : List Char) (n : Nat) : List Char := l.take (l.length - n)

/-- The `replace(/\s*,\s*TX$/, '')` pass.  On the (already collapsed,
single-spaced) input the regex can only match one of the four literal
suffixes below; the leftmost-match rule makes the longer, space-including
forms win, hence the order of the tests. -/
def stripStateSuffix (l : List Char) : List Char :=
  if (" , TX".data).isSuffixOf l then dropSuffixN l 5
  else if (", TX".data).isSuffixOf l then dropSuffixN l 4
  else if (" ,TX".data).isSuffixOf l then dropSuffixN l 4
  else if (",TX".data).isSuffixOf l then dropSuffixN l 3
  else l

/-- Body of `normalizeCountyName` for a truthy (non-empty) input string. -/
def normalizeCore (l : List Char) : List Char :=
  let upper := collapseAux false ((trimChars l).map jsToUpper)
  let withoutState := stripStateSuffix upper
  if (" COUNTY".data).isSuffixOf withoutState then withoutState
  else withoutState ++ (" COUNTY".data)

/-- `normalizeCountyName` from `lgb-scrape-NoMetro.js:23` / `part_004:27`:
guard on falsy input, trim, uppercase, collapse whitespace, strip a
trailing `, TX`, ensure a trailing ` COUNTY`. -/
def normalizeCountyName (raw : String) : String :=
  if raw = "" then "" else ⟨normalizeCore raw.data⟩

/-- A property row of the paginated listing API, with the fields the
orchestrator reads.  An absent/null field is modelled by `""`, which has
the same truthiness the source relies on. -/
structure ListingRow where
  uid : String := ""
  prop_address_one : String := ""
  prop_city : String := ""
  prop_state : String := ""
  prop_zipcode : String := ""
  status : String := ""
  minimum_bid : String := ""
  sale_notes : String := ""

/-- The per-UID detail record (`getPropertyDetails` result), with the
fields the address resolution reads; `{}` from a failed fetch is the
record with all fields `""`. -/
structure DetailsRec where
  prop_address_one : String := ""
  prop_city : String := ""
  prop_state : String := ""
  prop_zipcode : String := ""
  legal_description : String := ""

/-- `[...].filter(Boolean).join(', ')`. -/
def joinParts (parts : List String) : String :=
  String.intercalate ", " (parts.filter (fun p => p ≠ ""))

/-- Ranks 2-4 of the address precedence chain (detail fields, listing
fields, synthetic fallback), from `lgb-scrape-NoMetro.js:261-269`. -/
def resolveRest (details : DetailsRec) (p : ListingRow) (county : String) :
    String × String :=
  if details.prop_address_one ≠ "" ∨ details.prop_city ≠ "" ∨
      details.prop_zipcode ≠ "" then
    (joinParts [details.prop_address_one, details.prop_city,
      details.prop_state, details.prop_zipcode], "detail")
  else if p.prop_address_one ≠ "" then
    (joinParts [p.prop_address_one, p.prop_city, p.prop_state,
      p.prop_zipcode], "listing")
  else
    (county ++ " (address missing)", "approximated")

/-- The address precedence chain from `lgb-scrape-NoMetro.js:255-269` /
`part_004:237-257`: bulk map first (when present with a truthy value),
then detail, then listing, then the synthetic fallback. -/
def resolveAddress (uidMap : List (String × String)) (details : DetailsRec)
    (p : ListingRow) (county : String) : String × String :=
  match uidMap.lookup p.uid with
  | some v => if v ≠ "" then (v, "api_list") else resolveRest details p county
  | none => resolveRest details p county

/-- `uidMap.has(uidStr) && uidMap.get(uidStr)`. -/
def bulkHas (uidMap : List (String × String)) (uid : String) : Bool :=
  match uidMap.lookup uid with
  | some v => v ≠ ""
  | none => false

/-- The flattened output row, restricted to the fields the claims are
about. -/
structure OutputRecord where
  uid : String
  county : String
  address : String
  address_source : String
  min_bid : String

/-- Assembly of the output record by the orchestrator's per-property loop
(`results.push({...})`, `lgb-scrape-NoMetro.js:296-313`). -/
def assembleRecord (uidMap : List (String × String)) (details : DetailsRec)
    (p : ListingRow) (county : String) : OutputRecord :=
  let res := resolveAddress uidMap details p county
  { uid := p.uid, county := county, address := res.1,
    address_source := res.2, min_bid := p.minimum_bid }

end NoMetro

/-- C1: for a UID present in the per-county bulk UID-to-address map with a
non-empty value, the chosen address is the bulk-map value and the source
tag is `api_list`, regardless of the detail and listing address fields. -/
theorem c1_address_precedence (uidMap : List (String × String))
    (details : NoMetro.DetailsRec) (p : NoMetro.ListingRow) (county v : String)
    (hv : uidMap.lookup p.uid = some v) (hne : v ≠ "") :
    NoMetro.resolveAddress uidMap details p county = (v, "api_list") := by
  simp [NoMetro.resolveAddress, hv, hne]

/-- Witness for C1: a concrete record where the detail and listing rows
both carry non-empty addresses, yet the bulk-map value wins. -/
theorem c1_address_precedence_witness :
    NoMetro.resolveAddress [("42", "1 MAIN ST, AUSTIN, TX, 78701")]
      { prop_address_one := "9 OTHER RD", prop_city := "WACO",
        prop_state := "TX", prop_zipcode := "76701" }
      { uid := "42", prop_address_one := "5 LIST AVE", prop_city := "HUTTO" }
      "SMITH COUNTY"
      = ("1 MAIN ST, AUSTIN, TX, 78701", "api_list") :=
  c1_address_precedence _ _ _ _ _ (by decide) (by decide)

/-- C2: every assembled output record carries exactly one, non-empty
`address_source` from the ranked set; `approximated` is assigned exactly
when bulk, detail and listing sources are all unavailable, and then the
address is the synthetic `county (address missing)` string. -/
theorem c2_output_record_invariant (uidMap : List (String × String))
    (details : NoMetro.DetailsRec) (p : NoMetro.ListingRow) (county : String) :
    let r := NoMetro.assembleRecord uidMap details p county
    (r.address_source = "api_list" ∨ r.address_source = "detail" ∨
      r.address_source = "listing" ∨ r.address_source = "approximated")
    ∧ r.address_source ≠ ""
    ∧ (r.address_source = "approximated" ↔
        (NoMetro.bulkHas uidMap p.uid = false ∧
          details.prop_address_one = "" ∧ details.prop_city = "" ∧
          details.prop_zipcode = "" ∧ p.prop_address_one = ""))
    ∧ (r.address_source = "approximated" →
        r.address = county ++ " (address missing)") := by
  unfold NoMetro.assembleRecord NoMetro.resolveAddress NoMetro.resolveRest
    NoMetro.bulkHas
  rcases hlk : uidMap.lookup p.uid with _ | v <;> simp only [hlk] <;>
    split_ifs <;> simp_all <;> tauto

namespace NoMetro

/-! ### Vacancy classification -/

/-- The fixed keyword list shared by `isVacantLot`
(`lgb-scrape-NoMetro.js:178`) and the inline `vacancyKeywords`
(`lgb-scrape-NoMetro.js:278`). -/
def vacancyKeywords : List String :=
  ["VACANT", "LOT", "LOTS", "ACRE", "ACRES", "LAND", "LANDS", "TRACT",
   "TRACTS", "PARCEL", "PARCELS", "UNDEVELOPED", "UNIMPROVED", "RURAL"]

/-- `isVacantLot` from `lgb-scrape-NoMetro.js:177-181`: keyword search over
the combined, uppercased legal description and address text. -/
def isVacantLot (legal_description address : String) : Bool :=
  let text := jsUpperStr (legal_description ++ " " ++ address)
  vacancyKeywords.any fun term => containsStr text term

/-- `detectVacancy` from `lgb-scrape-NoMetro.js:279-287`: scan the keywords
in order, checking the legal description before the sale notes for each
keyword, returning the first match with its provenance. -/
def detectVacancy (legalDesc saleNotes : String) : Option (String × String) :=
  let upperLegal := jsUpperStr legalDesc
  let upperNotes := jsUpperStr saleNotes
  vacancyKeywords.findSome? fun term =>
    if containsStr upperLegal term then some (term, "legalDesc")
    else if containsStr upperNotes term then some (term, "saleNotes")
    else none

end NoMetro

namespace Part004

/-- The keyword list of the `part_004` variant (`part_004:180`), a strict
subset of the NoMetro list plus `LANDLOCKED`. -/
def vacantTerms : List String :=
  ["LOT", "VACANT", "LANDLOCKED", "UNDEVELOPED", "UNIMPROVED", "TRACT"]

/-- `isVacantLot` from `part_004:179-185`: vacant when the address is
missing/blank and a legal description is present, or when the legal
description (only) contains one of the keywords. -/
def isVacantLot (legalDesc address : String) : Bool :=
  let hasNoAddress : Bool := address == "" || jsTrim address == ""
  let hasLegalDesc : Bool := legalDesc != "" && jsTrim legalDesc != ""
  let containsVacantTerm : Bool :=
    vacantTerms.any fun t => containsStr (jsUpperStr legalDesc) t
  (hasNoAddress && hasLegalDesc) || containsVacantTerm

end Part004

theorem containsStr_vacant_of_vacant_lot (s : String)
    (h : containsStr s "VACANT LOT" = true) : containsStr s "VACANT" = true := by
  rw [containsStr, containsSub_iff] at h ⊢
  exact (show ("VACANT".data) <+: ("VACANT LOT".data) by decide).isInfix.trans h

/-- C7 counterexample: the `part_004` variant classifies a record with no
address and a keyword-free legal description as vacant, and a record whose
address text contains "VACANT LOT" (with a keyword-free legal description)
as not vacant, both contradicting the claim. -/
theorem c7_vacancy_counterexample :
    Part004.isVacantLot "HOUSE" "" = true ∧
    Part004.isVacantLot "" "VACANT LOT" = false := by decide

/-- C7 (amended): the claim as stated holds for the NoMetro classifier
(`isVacantLot` and `detectVacancy`), where a text containing "VACANT LOT"
matches keyword "VACANT" (the first keyword of the scan order); the
`part_004` variant scans keywords in the legal description only and
additionally reports vacant when the address is blank and a legal
description is present. -/
theorem c7_vacancy_classification (legal notes addr : String) :
    ((containsStr (jsUpperStr legal) "VACANT LOT" = true ∨
        containsStr (jsUpperStr notes) "VACANT LOT" = true) →
      NoMetro.detectVacancy legal notes =
        some ("VACANT",
          if containsStr (jsUpperStr legal) "VACANT" = true then "legalDesc"
          else "saleNotes"))
    ∧ ((∀ t ∈ NoMetro.vacancyKeywords,
          containsStr (jsUpperStr legal) t = false ∧
          containsStr (jsUpperStr notes) t = false) →
        NoMetro.detectVacancy legal notes = none)
    ∧ (containsStr (jsUpperStr (legal ++ " " ++ addr)) "VACANT LOT" = true →
        NoMetro.isVacantLot legal addr = true)
    ∧ ((∀ t ∈ NoMetro.vacancyKeywords,
          containsStr (jsUpperStr (legal ++ " " ++ addr)) t = false) →
        NoMetro.isVacantLot legal addr = false)
    ∧ ((∀ t ∈ Part004.vacantTerms, containsStr (jsUpperStr legal) t = false) →
        (jsTrim addr ≠ "" ∨ jsTrim legal = "") →
        Part004.isVacantLot legal addr = false)
    ∧ (containsStr (jsUpperStr legal) "VACANT LOT" = true →
        Part004.isVacantLot legal addr = true)
    ∧ ((jsTrim addr = "" ∧ legal ≠ "" ∧ jsTrim legal ≠ "") →
        Part004.isVacantLot legal addr = true) := by
  refine ⟨?_, ?_, ?_, ?_, ?_, ?_, ?_⟩
  · intro h
    have hv : containsStr (jsUpperStr legal) "VACANT" = true ∨
        containsStr (jsUpperStr notes) "VACANT" = true := by
      rcases h with h | h
      · exact Or.inl (containsStr_vacant_of_vacant_lot _ h)
      · exact Or.inr (containsStr_vacant_of_vacant_lot _ h)
    by_cases hL : containsStr (jsUpperStr legal) "VACANT" = true
    · simp [NoMetro.detectVacancy, NoMetro.vacancyKeywords, List.findSome?, hL]
    · have hN : containsStr (jsUpperStr notes) "VACANT" = true := by tauto
      simp [NoMetro.detectVacancy, NoMetro.vacancyKeywords, List.findSome?, hL, hN]
  · intro h
    rw [NoMetro.detectVacancy, List.findSome?_eq_none_iff]
    intro t ht
    have := h t ht
    simp [this.1, this.2]
  · intro h
    have hv := containsStr_vacant_of_vacant_lot _ h
    rw [NoMetro.isVacantLot]
    exact List.any_eq_true.mpr ⟨"VACANT", by decide, hv⟩
  · intro h
    rw [NoMetro.isVacantLot]
    apply List.any_eq_false.mpr
    intro t ht
    simp [h t ht]
  · intro hkw haddr
    have hterm :
        (Part004.vacantTerms.any fun t => containsStr (jsUpperStr legal) t) = false := by
      apply List.any_eq_false.mpr
      intro t ht
      simp [hkw t ht]
    rcases haddr with ha | hl
    · have haddr_ne : (addr == "") = false := by
        rcases eq_or_ne addr "" with rfl | hne
        · exact absurd rfl ha
        · simp [hne]
      have htrim_ne : (jsTrim addr == "") = false := by
        simpa using ha
      simp [Part004.isVacantLot, haddr_ne, htrim_ne, hterm]
    · simp [Part004.isVacantLot, hl, hterm]
  · intro h
    have hv := containsStr_vacant_of_vacant_lot _ h
    have : (Part004.vacantTerms.any fun t => containsStr (jsUpperStr legal) t) = true :=
      List.any_eq_true.mpr ⟨"VACANT", by decide, hv⟩
    simp [Part004.isVacantLot, this]
  · rintro ⟨h1, h2, h3⟩
    simp [Part004.isVacantLot, h1, h2, h3]

/-- Witness for C7: concrete classifications through the amended theorem. -/
theorem c7_vacancy_classification_witness :
    NoMetro.detectVacancy "VACANT LOT BLK 2" "" = some ("VACANT", "legalDesc")
    ∧ NoMetro.isVacantLot "NICE HOUSE" "123 MAIN" = false
    ∧ Part004.isVacantLot "NICE HOUSE" "123 MAIN" = false := by
  refine ⟨?_, ?_, ?_⟩
  · have h := (c7_vacancy_classification "VACANT LOT BLK 2" "" "").1
      (Or.inl (by decide))
    rw [if_pos (by decide)] at h
    exact h
  · exact (c7_vacancy_classification "NICE HOUSE" "" "123 MAIN").2.2.2.1
      (by decide)
  · exact (c7_vacancy_classification "NICE HOUSE" "" "123 MAIN").2.2.2.2.1
      (by decide) (Or.inl (by decide))

namespace NoMetro

/-! ### Final sort by numeric minimum bid -/

/-- `(s || '').toString().replace(/[^0-9.]/g, '')`. -/
def stripNonNumeric (s : String) : List Char :=
  s.data.filter (fun c => c.isDigit || c = '.')

/-- Numeric value of a digit string. -/
def digitsToNat (l : List Char) : Nat :=
  l.foldl (fun acc c => acc * 10 + (c.toNat - 48)) 0

/-- `parseFloat` on a string of digits and dots: parse the longest valid
number prefix (`digits`, `digits.digits`, `.digits` or `digits.`),
`none` when no prefix parses (JS `NaN`).  JS number values are modelled
by exact rationals. -/
def parsePrefixVal (l : List Char) : Option ℚ :=
  let intPart := l.takeWhile Char.isDigit
  let rest := l.dropWhile Char.isDigit
  match rest with
  | '.' :: r2 =>
    let frac := r2.takeWhile Char.isDigit
    if intPart.isEmpty && frac.isEmpty then none
    else some ((digitsToNat intPart : ℚ) +
      (digitsToNat frac : ℚ) / (10 : ℚ) ^ frac.length)
  | _ => if intPart.isEmpty then none else some ((digitsToNat intPart : ℚ))

/-- `parseFloat((min_bid || '').toString().replace(/[^0-9.]/g, '')) || 0`,
the sort key computation of `lgb-scrape-NoMetro.js:339-343` /
`part_004:302-306`. -/
def parseBidNum (s : String) : ℚ :=
  match parsePrefixVal (stripNonNumeric s) with
  | some q => q
  | none => 0

/-- The sort key of an output record. -/
def bidKey (r : OutputRecord) : ℚ := parseBidNum r.min_bid

/-- Comparator order of `results.sort((a, b) => aNum - bNum)`. -/
def bidLe (a b : OutputRecord) : Prop := bidKey a ≤ bidKey b

/-- Insertion step of the stable-sort model of `results.sort(...)`. -/
def insertByBid (x : OutputRecord) : List OutputRecord → List OutputRecord
  | [] => [x]
  | y :: ys => if bidKey x < bidKey y then x :: y :: ys else y :: insertByBid x ys

/-- Model of the final `results.sort((a, b) => aNum - bNum)`: a stable sort
by the parsed numeric minimum bid. -/
def sortByMinBid : List OutputRecord → List OutputRecord
  | [] => []
  | x :: xs => insertByBid x (sortByMinBid xs)

theorem chain'_insertByBid (x : OutputRecord) (l : List OutputRecord)
    (h : List.Chain' bidLe l) : List.Chain' bidLe (insertByBid x l) := by
  induction l with
  | nil => simp [insertByBid]
  | cons y ys ih =>
    by_cases hlt : bidKey x < bidKey y
    · rw [insertByBid, if_pos hlt]
      exact List.Chain'.cons (le_of_lt hlt) h
    · rw [insertByBid, if_neg hlt]
      have hyx : bidLe y x := le_of_not_lt hlt
      have hrec := ih h.tail
      cases ys with
      | nil =>
        simpa [insertByBid, List.chain'_cons, bidLe] using hyx
      | cons z zs =>
        rw [insertByBid] at hrec ⊢
        by_cases hlt2 : bidKey x < bidKey z
        · rw [if_pos hlt2] at hrec ⊢
          exact List.Chain'.cons hyx hrec
        · rw [if_neg hlt2] at hrec ⊢
          have hzy : bidLe y z := (List.chain'_cons.mp h).1
          exact List.Chain'.cons hzy hrec

theorem chain'_sortByMinBid (l : List OutputRecord) :
    List.Chain' bidLe (sortByMinBid l) := by
  induction l with
  | nil => simp [sortByMinBid]
  | cons x xs ih => exact chain'_insertByBid x _ ih

theorem perm_insertByBid (x : OutputRecord) (l : List OutputRecord) :
    List.Perm (insertByBid x l) (x :: l) := by
  induction l with
  | nil => simp [insertByBid]
  | cons y ys ih =>
    by_cases hlt : bidKey x < bidKey y
    · rw [insertByBid, if_pos hlt]
    · rw [insertByBid, if_neg hlt]
      exact (ih.cons y).trans (List.Perm.swap x y ys)

theorem perm_sortByMinBid (l : List OutputRecord) :
    List.Perm (sortByMinBid l) l := by
  induction l with
  | nil => simp [sortByMinBid]
  | cons x xs ih => exact (perm_insertByBid x _).trans (ih.cons x)

/-- The three-record example of the claim. -/
def exampleBidRecords : List OutputRecord :=
  [{ uid := "1", county := "A COUNTY", address := "", address_source := "listing",
     min_bid := "$1,200" },
   { uid := "2", county := "A COUNTY", address := "", address_source := "listing",
     min_bid := "abc" },
   { uid := "3", county := "A COUNTY", address := "", address_source := "listing",
     min_bid := "$500" }]

end NoMetro

/-- C9: the final sort orders records ascending by the numeric value parsed
from `min_bid` (stripping everything but digits and dots), treating
non-numeric or missing bids as 0; on the example bids `$1,200`, `abc`,
`$500` the sorted keys are `[0, 500, 1200]`. -/
theorem c9_sort_order (l : List NoMetro.OutputRecord) :
    List.Chain' NoMetro.bidLe (NoMetro.sortByMinBid l)
    ∧ List.Perm (NoMetro.sortByMinBid l) l
    ∧ NoMetro.parseBidNum "abc" = 0
    ∧ NoMetro.parseBidNum "" = 0
    ∧ (NoMetro.sortByMinBid NoMetro.exampleBidRecords).map NoMetro.bidKey
        = [0, 500, 1200] :=
  ⟨NoMetro.chain'_sortByMinBid l, NoMetro.perm_sortByMinBid l,
    by decide, by decide, by decide⟩

namespace NoMetro

/-! ### Pagination walker (`getProperties`) -/

/-- A page of the paginated listing API, with the two fields
`getProperties` reads: the `results` array and the opaque `next` cursor
(`none` models an absent/null `next`). -/
structure Page (α : Type) where
  results : List α
  next : Option String

/-- Truthiness of `data.next` (absent, `null` and `""` are all falsy). -/
def nextTruthy {α : Type} (p : Page α) : Bool :=
  match p.next with
  | some s => s ≠ ""
  | none => false

/-- The stop condition of the walker: a page stops the loop when its
results are empty or its `next` cursor is falsy. -/
def pageStops {α : Type} (p : Page α) : Bool :=
  p.results.isEmpty || !nextTruthy p

/-- The `while (true)` loop of `getProperties`
(`lgb-scrape-NoMetro.js:118-140` / `part_004:120-141`): fetch the page at
the current offset, break on empty results, append, break on falsy
`next`, advance the offset by the limit (600).  The pages oracle is
indexed by offset; the result also counts the pages fetched.  `none`
means the loop is still running after `fuel` iterations. -/
def getPropertiesLoop {α : Type} (pages : Nat → Page α) :
    Nat → Nat → List α → Nat → Option (List α × Nat)
  | _, 0, _, _ => none
  | offset, fuel + 1, acc, fetched =>
    let d := pages offset
    if d.results.isEmpty then some (acc, fetched + 1)
    else if !nextTruthy d then some (acc ++ d.results, fetched + 1)
    else getPropertiesLoop pages (offset + 600) fuel (acc ++ d.results)
      (fetched + 1)

/-- `getProperties`, starting at offset 0 with an empty accumulator. -/
def getProperties {α : Type} (pages : Nat → Page α) (fuel : Nat) :
    Option (List α × Nat) :=
  getPropertiesLoop pages 0 fuel [] 0

theorem flatMap_range_peel {α : Type} (f : Nat → List α) (n : Nat) :
    (List.range (n + 1)).flatMap f
      = f 0 ++ (List.range n).flatMap (fun k => f (k + 1)) := by
  rw [List.range_succ_eq_map, List.flatMap_cons, List.flatMap_map]

theorem getPropertiesLoop_spec {α : Type} (pages : Nat → Page α) :
    ∀ (N j fuel : Nat) (acc : List α) (fetched : Nat),
      (∀ k, k < N → pageStops (pages (600 * (j + k))) = false) →
      pageStops (pages (600 * (j + N))) = true →
      N < fuel →
      getPropertiesLoop pages (600 * j) fuel acc fetched =
        some (acc ++ (List.range (N + 1)).flatMap
            (fun k => if (pages (600 * (j + k))).results.isEmpty then []
              else (pages (600 * (j + k))).results),
          fetched + N + 1) := by
  intro N
  induction N with
  | zero =>
    intro j fuel acc fetched _ hstop hfuel
    obtain ⟨fuel', rfl⟩ : ∃ fuel', fuel = fuel' + 1 :=
      ⟨fuel - 1, by omega⟩
    rw [getPropertiesLoop]
    have hr1 : List.range 1 = [0] := rfl
    simp only [Nat.add_zero] at hstop
    by_cases hemp : (pages (600 * j)).results.isEmpty
    · have hres : (pages (600 * j)).results = [] := List.isEmpty_iff.mp hemp
      simp [hemp, hr1, hres]
    · have hnext : nextTruthy (pages (600 * j)) = false := by
        simp only [pageStops, Bool.or_eq_true] at hstop
        rcases hstop with h | h
        · exact absurd h hemp
        · simpa using h
      simp [hemp, hnext, hr1]
  | succ N ih =>
    intro j fuel acc fetched hbefore hstop hfuel
    obtain ⟨fuel', rfl⟩ : ∃ fuel', fuel = fuel' + 1 :=
      ⟨fuel - 1, by omega⟩
    have h0 : pageStops (pages (600 * (j + 0))) = false := hbefore 0 (by omega)
    simp only [Nat.add_zero] at h0
    have hemp : (pages (600 * j)).results.isEmpty = false := by
      rcases h : (pages (600 * j)).results.isEmpty with _ | _
      · rfl
      · simp [pageStops, h] at h0
    have hnext : nextTruthy (pages (600 * j)) = true := by
      rcases h : nextTruthy (pages (600 * j)) with _ | _
      · simp [pageStops, h, hemp] at h0
      · rfl
    rw [getPropertiesLoop]
    simp only [hemp, Bool.false_eq_true, if_false, hnext, Bool.not_true,
      if_false]
    have hrw : 600 * j + 600 = 600 * (j + 1) := by ring
    rw [hrw]
    have hbefore' : ∀ k, k < N → pageStops (pages (600 * ((j + 1) + k))) = false := by
      intro k hk
      have := hbefore (k + 1) (by omega)
      have harg : j + (k + 1) = (j + 1) + k := by omega
      rwa [harg] at this
    have hstop' : pageStops (pages (600 * ((j + 1) + N))) = true := by
      have harg : j + (N + 1) = (j + 1) + N := by omega
      rwa [harg] at hstop
    rw [ih (j + 1) fuel' (acc ++ (pages (600 * j)).results) (fetched + 1)
      hbefore' hstop' (by omega)]
    refine congrArg some (Prod.ext ?_ (by omega))
    rw [List.append_assoc]
    conv_rhs => rw [flatMap_range_peel]
    simp only [Nat.add_zero, hemp, Bool.false_eq_true, if_false]
    have hfun : (fun k => if (pages (600 * (j + 1 + k))).results.isEmpty = true
          then [] else (pages (600 * (j + 1 + k))).results)
        = (fun k => if (pages (600 * (j + (k + 1)))).results.isEmpty = true
          then [] else (pages (600 * (j + (k + 1)))).results) := by
      funext k
      rw [show j + 1 + k = j + (k + 1) from by omega]
    rw [hfun]

end NoMetro

/-- C6: when the page at offset `600·N` is the first to satisfy the stop
condition (empty results or falsy `next`), the walker terminates after
fetching exactly `N+1` pages and returns the concatenation of all fetched
pages' results. -/
theorem c6_pagination_walker {α : Type} (pages : Nat → NoMetro.Page α)
    (N fuel : Nat)
    (hbefore : ∀ k, k < N → NoMetro.pageStops (pages (600 * k)) = false)
    (hstop : NoMetro.pageStops (pages (600 * N)) = true)
    (hfuel : N < fuel) :
    NoMetro.getProperties pages fuel =
      some ((List.range (N + 1)).flatMap
          (fun k => if (pages (600 * k)).results.isEmpty then []
            else (pages (600 * k)).results),
        N + 1) := by
  have h := NoMetro.getPropertiesLoop_spec pages N 0 fuel [] 0
    (by intro k hk; simpa using hbefore k hk)
    (by simpa using hstop) hfuel
  simp only [Nat.mul_zero, Nat.zero_add] at h ⊢
  simpa using h

/-- The two-page scenario of the claim: page 1 has 600 results and a
cursor, page 2 has 400 results and no cursor. -/
def c6ScenarioPages : Nat → NoMetro.Page Nat := fun off =>
  if off = 0 then ⟨List.replicate 600 0, some "cursor2"⟩
  else if off = 600 then ⟨List.replicate 400 0, none⟩
  else ⟨[], none⟩

/-- Witness for C6: on the mocked two-page listing, the walker stops after
page 2 and aggregates exactly 1000 results. -/
theorem c6_pagination_walker_witness :
    NoMetro.getProperties c6ScenarioPages 2 =
      some (List.replicate 600 0 ++ List.replicate 400 0, 2)
    ∧ (List.replicate 600 (0 : Nat) ++ List.replicate 400 0).length = 1000 := by
  have h600 : (List.replicate 600 (0 : Nat)).isEmpty = false := by simp
  have h400 : (List.replicate 400 (0 : Nat)).isEmpty = false := by simp
  have hstop1 : NoMetro.pageStops (c6ScenarioPages (600 * 1)) = true := by
    rw [show c6ScenarioPages (600 * 1)
      = ⟨List.replicate 400 0, none⟩ from rfl]
    simp [NoMetro.pageStops, NoMetro.nextTruthy]
  have hbef : ∀ k, k < 1 →
      NoMetro.pageStops (c6ScenarioPages (600 * k)) = false := by
    intro k hk
    have hk0 : k = 0 := by omega
    subst hk0
    rw [show c6ScenarioPages (600 * 0)
      = ⟨List.replicate 600 0, some "cursor2"⟩ from rfl]
    simp [NoMetro.pageStops, NoMetro.nextTruthy, h600]
  have h := c6_pagination_walker c6ScenarioPages 1 2 hbef hstop1 (by omega)
  constructor
  · rw [h]
    have hpair : (List.range 2).flatMap
        (fun k => if (c6ScenarioPages (600 * k)).results.isEmpty = true then []
          else (c6ScenarioPages (600 * k)).results)
        = List.replicate 600 0 ++ List.replicate 400 0 := by
      rw [show List.range 2 = [0, 1] from rfl]
      simp only [List.flatMap_cons, List.flatMap_nil, List.append_nil]
      rw [show c6ScenarioPages (600 * 0)
          = ⟨List.replicate 600 0, some "cursor2"⟩ from rfl,
        show c6ScenarioPages (600 * 1)
          = ⟨List.replicate 400 0, none⟩ from rfl]
      simp only [h600, h400, Bool.false_eq_true, if_false]
    rw [hpair]
  · simp only [List.length_append, List.length_replicate]

/-- The lien summary record (`extractLienInfo`'s result shape, shared by
`part_000` and `texasfile_enrichment.js`). -/
structure LienSummary where
  lien_present : Bool
  lien_types : List String
  lien_count : Nat
  last_lien_date : Option String
  matching_doc_urls : List String
deriving DecidableEq

/-- `{lien_present: false, lien_types: [], lien_count: 0,
last_lien_date: null, matching_doc_urls: []}`. -/
def emptyLienSummary : LienSummary :=
  { lien_present := false, lien_types := [], lien_count := 0,
    last_lien_date := none, matching_doc_urls := [] }

namespace Part000

/-! ## `part_000`: the session-based lien-enrichment script -/

/-- JSON string escaping as `JSON.stringify` performs it (the control
characters beyond these do not occur in the embedded data). -/
def escapeChar (c : Char) : List Char :=
  if c = '"' then ['\\', '"']
  else if c = '\\' then ['\\', '\\']
  else if c = '\n' then ['\\', 'n']
  else if c = '\r' then ['\\', 'r']
  else if c = '\t' then ['\\', 't']
  else [c]

def escapeString (s : String) : String := ⟨s.data.flatMap escapeChar⟩

mutual

/-- `JSON.stringify` (compact form, no spacing). -/
def jsonStringify : Json → String
  | .null => "null"
  | .bool true => "true"
  | .bool false => "false"
  | .num n => toString n
  | .str s => "\"" ++ escapeString s ++ "\""
  | .arr xs => "[" ++ stringifyList xs ++ "]"
  | .obj fs => "\x7b" ++ stringifyFields fs ++ "\x7d"

def stringifyList : List Json → String
  | [] => ""
  | [x] => jsonStringify x
  | x :: y :: rest => jsonStringify x ++ "," ++ stringifyList (y :: rest)

def stringifyFields : List (String × Json) → String
  | [] => ""
  | [(k, v)] => "\"" ++ escapeString k ++ "\":" ++ jsonStringify v
  | (k, v) :: kv :: rest =>
    "\"" ++ escapeString k ++ "\":" ++ jsonStringify v ++ "," ++
      stringifyFields (kv :: rest)

end

mutual

/-- JS `String(v)` conversion. -/
def jsToString : Json → String
  | .null => "null"
  | .bool true => "true"
  | .bool false => "false"
  | .num n => toString n
  | .str s => s
  | .obj _ => "[object Object]"
  | .arr xs => jsToStringElems xs

/-- Array `toString`: elements joined by commas, `null` rendering empty. -/
def jsToStringElems : List Json → String
  | [] => ""
  | [x] => jsToStringElem x
  | x :: y :: rest => jsToStringElem x ++ "," ++ jsToStringElems (y :: rest)

def jsToStringElem : Json → String
  | .null => ""
  | x => jsToString x

end

/-- The `hits.length === 0` test (strict equality against the number 0;
a value with no `length` property compares false). -/
def jsLengthEq0 : Json → Bool
  | .arr xs => xs.isEmpty
  | .str s => s.data.isEmpty
  | .obj fs =>
    match lookupField fs "length" with
    | some (.num 0) => true
    | _ => false
  | _ => false

/-- The known-path hits resolution of `extractLienInfo`
(`part_000:402-411`): four shapes tried in order; the initial value is the
empty array `hits = []`. -/
def hitsStage1 (api : Option Json) : Json :=
  let p1 := jsGetOpt (jsGetOpt (jsGetOpt (jsGetOpt (jsGetOpt api
    "response") "response") "data") "hits") "hits"
  if truthy p1 then p1.getD .null
  else
    let p2 := jsGetOpt (jsGetOpt (jsGetOpt (jsGetOpt api "response")
      "data") "hits") "hits"
    if truthy p2 then p2.getD .null
    else
      match jsGetOpt api "hits" with
      | some (.arr xs) => .arr xs
      | _ =>
        let p4 := jsGetOpt (jsGetOpt api "response") "hits"
        if truthy p4 then p4.getD .null else .arr []

/-- The lien keyword list of `part_000:80-86`. -/
def LIEN_KEYWORDS : List String :=
  ["LIEN", "MECHANICS LIEN", "HOSPITAL LIEN",
   "TAX LIEN FEDERAL", "TAX LIEN STATE",
   "LIS PENDENS", "JUDGEMENT", "UCC",
   "NOTICE OF TRUSTEE SALE", "DEED OF TRUST",
   "RELEASE"]

mutual

/-- The recursive scan of `findCandidateArrayByText` (`part_000:414-437`):
arrays whose serialized 5-element sample contains the (lowercased) search
text are collected; otherwise only the first five elements are scanned;
object values are scanned in key order. -/
def scanText (lower : String) : Json → List (List Json)
  | .arr xs =>
    if lower ≠ "" ∧
        containsStr (jsLowerStr (jsonStringify (.arr (xs.take 5)))) lower then
      [xs]
    else scanTextBounded lower 5 xs
  | .obj fs => scanTextFields lower fs
  | _ => []

def scanTextBounded (lower : String) : Nat → List Json → List (List Json)
  | 0, _ => []
  | _, [] => []
  | n + 1, x :: rest => scanText lower x ++ scanTextBounded lower n rest

def scanTextFields (lower : String) : List (String × Json) → List (List Json)
  | [] => []
  | kv :: rest => scanText lower kv.2 ++ scanTextFields lower rest

end

/-- `candidates.sort((a, b) => b.arr.length - a.arr.length)[0]`: the first
(stable sort) candidate of maximal length. -/
def pickLongest (cs : List (List Json)) : Option (List Json) :=
  cs.foldl (fun best c =>
    match best with
    | none => some c
    | some b => if c.length > b.length then some c else best) none

/-- `searchName.split(/[ ,]+/)[0] || searchName`. -/
def firstToken (s : String) : String :=
  let tok := s.data.takeWhile (fun c => !(c = ' ' || c = ','))
  if tok.isEmpty then s else ⟨tok⟩

/-- `findCandidateArrayByText` (`part_000:414-437`). -/
def findCandidateArrayByText (api : Option Json) (text : String) :
    Option (List Json) :=
  pickLongest (match api with
    | some j => scanText (jsLowerStr text) j
    | none => [])

mutual

/-- The recursive scan of `findByLienKeyword` (`part_000:449-468`), like
the text scan but matching any lien keyword in the serialized sample. -/
def scanKw : Json → List (List Json)
  | .arr xs =>
    if LIEN_KEYWORDS.any (fun k =>
        containsStr (jsLowerStr (jsonStringify (.arr (xs.take 5))))
          (jsLowerStr k)) then
      [xs]
    else scanKwBounded 5 xs
  | .obj fs => scanKwFields fs
  | _ => []

def scanKwBounded : Nat → List Json → List (List Json)
  | 0, _ => []
  | _, [] => []
  | n + 1, x :: rest => scanKw x ++ scanKwBounded n rest

def scanKwFields : List (String × Json) → List (List Json)
  | [] => []
  | kv :: rest => scanKw kv.2 ++ scanKwFields rest

end

/-- `findByLienKeyword` (`part_000:449-468`). -/
def findByLienKeyword (api : Option Json) : Option (List Json) :=
  pickLongest (match api with
    | some j => scanKw j
    | none => [])

/-- Stage 2 of the hits resolution (`part_000:440-445`): when the hits are
still empty and a search name was given, adopt a non-empty candidate array
found by the text search. -/
def hitsStage2 (api : Option Json) (searchName : String) (hits : Json) :
    Json :=
  if jsLengthEq0 hits && searchName != "" then
    match findCandidateArrayByText api (firstToken searchName) with
    | some xs => if xs.length > 0 then Json.arr xs else hits
    | none => hits
  else hits

/-- Stage 3 of the hits resolution (`part_000:448-471`): when the hits are
still empty, adopt any candidate array found by the lien-keyword search. -/
def hitsStage3 (api : Option Json) (hits : Json) : Json :=
  if jsLengthEq0 hits then
    match findByLienKeyword api with
    | some xs => Json.arr xs
    | none => hits
  else hits

/-- `for (const item of hits)`: arrays iterate their elements, strings
their characters (as 1-character strings); other values are not iterable
and the `for`-`of` throws, which the surrounding `try` turns into the
empty result. -/
def jsIterate : Json → Option (List Json)
  | .arr xs => some xs
  | .str s => some (s.data.map (fun c => .str ⟨[c]⟩))
  | _ => none

/-- Digit run value. -/
def digitsVal (l : List Char) : Nat :=
  l.foldl (fun a c => a * 10 + (c.toNat - 48)) 0

/-- Scan match positions left to right, as a JS regex search does. -/
def scanPositions (f : List Char → Option (List Char)) :
    List Char → Option (List Char)
  | [] => f []
  | c :: rest =>
    match f (c :: rest) with
    | some m => some m
    | none => scanPositions f rest

/-- Try `/\d{4}-\d{2}-\d{2}/` at the start of the list. -/
def isoHere : List Char → Option (List Char)
  | a :: b :: c :: d :: '-' :: e :: f :: '-' :: g :: h :: _ =>
    if a.isDigit && b.isDigit && c.isDigit && d.isDigit && e.isDigit &&
        f.isDigit && g.isDigit && h.isDigit then
      some [a, b, c, d, '-', e, f, '-', g, h]
    else none
  | _ => none

/-- `v.match(/\d{4}-\d{2}-\d{2}/)`, first match. -/
def matchIso (s : String) : Option String :=
  (scanPositions isoHere s.data).map (fun l => (⟨l⟩ : String))

/-- Exactly `n` digits from the front. -/
def exactDigits : Nat → List Char → Option (List Char × List Char)
  | 0, l => some ([], l)
  | _ + 1, [] => none
  | n + 1, c :: rest =>
    if c.isDigit then
      (exactDigits n rest).map (fun dr => (c :: dr.1, dr.2))
    else none

/-- One backtracking attempt of `/\d{1,2}\/\d{1,2}\/\d{2,4}/` with fixed
digit counts for the first two groups; the year group is greedy (up to 4,
at least 2 digits). -/
def usAttempt (n1 n2 : Nat) (l : List Char) : Option (List Char) :=
  match exactDigits n1 l with
  | none => none
  | some (d1, r1) =>
    match r1 with
    | '/' :: r2 =>
      match exactDigits n2 r2 with
      | none => none
      | some (d2, r3) =>
        match r3 with
        | '/' :: r4 =>
          let ds := (r4.takeWhile Char.isDigit).take 4
          if ds.length ≥ 2 then
            some (d1 ++ '/' :: d2 ++ '/' :: ds)
          else none
        | _ => none
    | _ => none

/-- Try `/\d{1,2}\/\d{1,2}\/\d{2,4}/` at the start, with the greedy
backtracking order of the JS engine. -/
def usHere (l : List Char) : Option (List Char) :=
  match usAttempt 2 2 l with
  | some m => some m
  | none =>
    match usAttempt 2 1 l with
    | some m => some m
    | none =>
      match usAttempt 1 2 l with
      | some m => some m
      | none => usAttempt 1 1 l

/-- `v.match(/\d{1,2}\/\d{1,2}\/\d{2,4}/)`, first match. -/
def matchUS (s : String) : Option String :=
  (scanPositions usHere s.data).map (fun l => (⟨l⟩ : String))

/-- A character allowed in the URL regex's `[^\s"']` class. -/
def urlChar (c : Char) : Bool := !(jsWs c || c = '"' || c = '\'')

/-- Try the first URL alternative `https?:\/\/[^\s"']+` (case-insensitive)
at the start. -/
def alt1Here (l : List Char) : Option (List Char) :=
  match l with
  | h :: t1 :: t2 :: p :: rest =>
    if jsToLower h = 'h' && jsToLower t1 = 't' && jsToLower t2 = 't' &&
        jsToLower p = 'p' then
      match rest with
      | s :: ':' :: '/' :: '/' :: r2 =>
        if jsToLower s = 's' then
          let body := r2.takeWhile urlChar
          if body.isEmpty then none
          else some ([h, t1, t2, p, s, ':', '/', '/'] ++ body)
        else
          match rest with
          | ':' :: '/' :: '/' :: r3 =>
            let body := r3.takeWhile urlChar
            if body.isEmpty then none
            else some ([h, t1, t2, p, ':', '/', '/'] ++ body)
          | _ => none
      | ':' :: '/' :: '/' :: r2 =>
        let body := r2.takeWhile urlChar
        if body.isEmpty then none
        else some ([h, t1, t2, p, ':', '/', '/'] ++ body)
      | _ => none
    else none
  | _ => none

/-- The ordered alternation `(pdf|htm|html)` (case-insensitive); `html`
matches through its `htm` branch first, as the unanchored JS regex does. -/
def extHere : List Char → Option (List Char)
  | p :: d :: f :: _ =>
    if jsToLower p = 'p' && jsToLower d = 'd' && jsToLower f = 'f' then
      some [p, d, f]
    else if jsToLower p = 'h' && jsToLower d = 't' && jsToLower f = 'm' then
      some [p, d, f]
    else none
  | _ => none

/-- Backtracking split for `\/[^\s"']+\.(pdf|htm|html)`: the body starts at
its greedy maximum and shrinks until a `.` plus extension follows. -/
def alt2Try (after : List Char) : Nat → Option (List Char)
  | 0 => none
  | blen + 1 =>
    let body := after.take (blen + 1)
    match after.drop (blen + 1) with
    | '.' :: r2 =>
      match extHere r2 with
      | some ext => some ('/' :: body ++ '.' :: ext)
      | none => alt2Try after blen
    | _ => alt2Try after blen

/-- Try the second URL alternative at the start. -/
def alt2Here (l : List Char) : Option (List Char) :=
  match l with
  | '/' :: after => alt2Try after (after.takeWhile urlChar).length
  | _ => none

/-- Try `/(https?:\/\/[^\s"']+|\/[^\s"']+\.(pdf|htm|html))/i` at the
start: ordered alternation. -/
def urlHere (l : List Char) : Option (List Char) :=
  match alt1Here l with
  | some m => some m
  | none => alt2Here l

/-- `v.match(urlRegex)`, first match. -/
def matchUrl (s : String) : Option String :=
  (scanPositions urlHere s.data).map (fun l => (⟨l⟩ : String))

/-- `item && typeof item === 'object'` (arrays included, `null` excluded). -/
def isObjLike : Json → Bool
  | .obj _ => true
  | .arr _ => true
  | _ => false

/-- The fields of an object (`[]` for any other value). -/
def fieldsOf : Json → List (String × Json)
  | .obj fs => fs
  | _ => []

/-- `Object.values(item)`: field values for objects, elements for arrays. -/
def jsValues : Json → List Json
  | .obj fs => fs.map (fun kv => kv.2)
  | .arr xs => xs
  | _ => []

/-- The probed type field names (`part_000:505`). -/
def typeKeys : List String :=
  ["type", "document_type", "doc_type", "instrument_type", "title",
   "topic", "name"]

/-- `item.type || item.document_type || ...`: the first truthy probe. -/
def firstTruthyField (fs : List (String × Json)) (keys : List String) :
    Option Json :=
  keys.findSome? fun k =>
    let v := lookupField fs k
    if truthy v then v else none

/-- The value-scan fallback for the type (`part_000:507-511`): the first
string value containing a lien keyword (case-insensitively via upper). -/
def keywordStringValue (vs : List Json) : Option Json :=
  vs.findSome? fun v =>
    match v with
    | .str s =>
      if LIEN_KEYWORDS.any (fun k =>
          containsStr (jsUpperStr s) (jsUpperStr k)) then
        some (.str s)
      else none
    | _ => none

/-- The per-item type extraction (`part_000:503-513`). -/
def extractType (item : Json) : Option Json :=
  if isObjLike item then
    match firstTruthyField (fieldsOf item) typeKeys with
    | some v => some v
    | none => keywordStringValue (jsValues item)
  else none

/-- Per-value date probe: ISO pattern first, then US pattern
(`part_000:518-525`). -/
def dateOfVal (v : Json) : Option String :=
  match v with
  | .str s =>
    match matchIso s with
    | some d => some d
    | none => matchUS s
  | _ => none

/-- The per-item date extraction (`part_000:516-529`). -/
def extractDate (item : Json) : Option String :=
  if isObjLike item then (jsValues item).findSome? dateOfVal
  else
    match item with
    | .str s => dateOfVal (.str s)
    | _ => none

/-- Per-value URL probe. -/
def urlOfVal (v : Json) : Option String :=
  match v with
  | .str s => matchUrl s
  | _ => none

/-- The per-item URL extraction (`part_000:538-548`): every string value's
first URL match is collected (no early exit). -/
def extractUrls (item : Json) : List String :=
  if isObjLike item then (jsValues item).filterMap urlOfVal
  else
    match item with
    | .str s => (matchUrl s).toList
    | _ => []

/-- Split a character list on a separator. -/
def splitOnChar (sep : Char) : List Char → List (List Char)
  | [] => [[]]
  | c :: rest =>
    let r := splitOnChar sep rest
    if c = sep then [] :: r
    else
      match r with
      | [] => [[c]]
      | h :: t => (c :: h) :: t

/-- JS two-digit-year rule for `new Date("m/d/yy")`: 0-49 map to the
2000s, 50-99 to the 1900s. -/
def fixYear (y : Nat) (digits : Nat) : Nat :=
  if digits ≤ 2 then (if y ≤ 49 then 2000 + y else 1900 + y) else y

/-- Parse the date strings the two regexes produce into (year, month,
day); this models the `new Date(...)` values the source compares, for
exactly the strings its own regexes can produce. -/
def dateTriple (s : String) : Option (Nat × Nat × Nat) :=
  match splitOnChar '-' s.data with
  | [y, m, d] =>
    if !y.isEmpty && !m.isEmpty && !d.isEmpty then
      some (digitsVal y, digitsVal m, digitsVal d)
    else none
  | _ =>
    match splitOnChar '/' s.data with
    | [m, d, y] =>
      if !y.isEmpty && !m.isEmpty && !d.isEmpty then
        some (fixYear (digitsVal y) y.length, digitsVal m, digitsVal d)
      else none
    | _ => none

/-- Lexicographic order on (year, month, day). -/
def tripleLt : Nat × Nat × Nat → Nat × Nat × Nat → Bool
  | (y1, m1, d1), (y2, m2, d2) =>
    decide (y1 < y2) ||
      (decide (y1 = y2) &&
        (decide (m1 < m2) || (decide (m1 = m2) && decide (d1 < d2))))

/-- `new Date(a) > new Date(b)`, on the regex-produced date strings. -/
def jsDateGt (a b : String) : Bool :=
  match dateTriple a, dateTriple b with
  | some x, some y => tripleLt y x
  | _, _ => false

/-- Running aggregation state of the per-item loop (`part_000:485-488`). -/
structure LienAgg where
  types : List String
  lastDate : Option String
  urls : List String
  count : Nat

/-- One iteration of the per-item loop (`part_000:494-553`): serialize the
item, require a lien keyword, then collect type, latest date and URLs. -/
def stepItem (a : LienAgg) (item : Json) : LienAgg :=
  let s := jsUpperStr (jsonStringify
    (if truthy (some item) then item else .str ""))
  if !(LIEN_KEYWORDS.any fun k => containsStr s (jsUpperStr k)) then a
  else
    let a1 : LienAgg := { a with count := a.count + 1 }
    let a2 : LienAgg :=
      match extractType item with
      | some t => { a1 with types := setAdd a1.types (jsTrim (jsToString t)) }
      | none => a1
    let a3 : LienAgg :=
      match extractDate item with
      | some d =>
        match a2.lastDate with
        | none => { a2 with lastDate := some d }
        | some prev =>
          if jsDateGt d prev then { a2 with lastDate := some d } else a2
      | none => a2
    { a3 with urls := (extractUrls item).foldl setAdd a3.urls }

/-- The aggregation over the resolved hits (`part_000:484-571`). -/
def aggregateItems (items : List Json) : LienSummary :=
  let a := items.foldl stepItem ⟨[], none, [], 0⟩
  if a.count = 0 then emptyLienSummary
  else
    { lien_present := true, lien_types := a.types, lien_count := a.count,
      last_lien_date := a.lastDate, matching_doc_urls := a.urls }

/-- `extractLienInfo` from `part_000:399-582`: resolve the hits through the
three stages, return the empty summary when nothing was found (or when the
hits value is not iterable, in which case the `for`-`of` throws and the
surrounding `try` returns the empty summary), otherwise aggregate. -/
def extractLienInfo (api : Option Json) (searchName : String) : LienSummary :=
  let hits := hitsStage3 api (hitsStage2 api searchName (hitsStage1 api))
  if jsLengthEq0 hits then emptyLienSummary
  else
    match jsIterate hits with
    | none => emptyLienSummary
    | some items => aggregateItems items

end Part000

/-- C3: on any input for which the known-path probes produce no hit array,
the name search finds no candidate array and the lien-keyword search finds
no candidate array (in particular on `null`, non-object values, and any
tree without a recognizable hit array), `extractLienInfo` returns exactly
the empty lien summary; being a total function of the embedding, it throws
no exception. -/
theorem c3_lien_default_behaviour (api : Option Json) (searchName : String)
    (h1 : Part000.hitsStage1 api = Json.arr [])
    (h2 : searchName = "" ∨
      Part000.findCandidateArrayByText api (Part000.firstToken searchName)
        = none)
    (h3 : Part000.findByLienKeyword api = none) :
    Part000.extractLienInfo api searchName = emptyLienSummary := by
  unfold Part000.extractLienInfo
  rw [h1]
  have hs2 : Part000.hitsStage2 api searchName (Json.arr []) = Json.arr [] := by
    unfold Part000.hitsStage2
    rcases h2 with h | h
    · simp [h]
    · simp [h]
  rw [hs2]
  have hs3 : Part000.hitsStage3 api (Json.arr []) = Json.arr [] := by
    unfold Part000.hitsStage3
    simp [h3, Part000.jsLengthEq0]
  rw [hs3]
  simp [Part000.jsLengthEq0]

/-- Witness for C3: the default summary on a `null` response, a numeric
response, an `undefined` response and an object response with no
recognizable hit array. -/
theorem c3_lien_default_behaviour_witness :
    Part000.extractLienInfo (some (Json.obj [("status", Json.str "ok")]))
      "SMITH" = emptyLienSummary
    ∧ Part000.extractLienInfo none "SMITH" = emptyLienSummary
    ∧ Part000.extractLienInfo (some (Json.num 5)) "SMITH" = emptyLienSummary
    ∧ Part000.extractLienInfo (some Json.null) "SMITH" = emptyLienSummary := by
  refine ⟨?_, ?_, ?_, ?_⟩ <;>
    exact c3_lien_default_behaviour _ _ rfl (Or.inr rfl) rfl

namespace Part000

/-! ### The bounded retry loop of `processCSV` (`part_000:621-667`) -/

/-- `const maxRetries = 2`. -/
def maxRetries : Nat := 2

/-- The retry loop (`part_000:624-638`): attempts indexed by the oracle;
returns the final outcome, the number of fetch attempts made, and the
computed backoff delays (`1000 * 2^attempt` after each caught failure that
leaves retries). -/
def retryLoop (responses : Nat → Except String Json) :
    Nat → Nat → Except String Json × Nat × List Nat
  | attempt, 0 =>
    match responses attempt with
    | .ok v => (.ok v, attempt + 1, [])
    | .error e => (.error e, attempt + 1, [])
  | attempt, remaining + 1 =>
    match responses attempt with
    | .ok v => (.ok v, attempt + 1, [])
    | .error _ =>
      let r := retryLoop responses (attempt + 1) remaining
      (r.1, r.2.1, 1000 * 2 ^ (attempt + 1) :: r.2.2)

/-- An output row of the enrichment pass: the original row, the merged
lien summary (when a truthy response was obtained), and the error field
(when the final retry threw). -/
structure EnrichedRow where
  row : List (String × String)
  lien : Option LienSummary
  error : Option String
deriving DecidableEq

/-- Per-row processing (`part_000:621-667`): bounded retry, then lien
extraction on a truthy response; a falsy response emits the row with
default lien fields; a propagated error emits the row with the `error`
field set and no lien summary. -/
def processRow (responses : Nat → Except String Json) (name : String)
    (row : List (String × String)) : EnrichedRow :=
  match (retryLoop responses 0 maxRetries).1 with
  | .ok v =>
    if truthy (some v) then
      { row := row, lien := some (extractLienInfo (some v) name),
        error := none }
    else { row := row, lien := none, error := none }
  | .error e => { row := row, lien := none, error := some e }

/-- The whole enrichment loop: rows processed independently, in order
(the oracle is indexed by row position, then by attempt). -/
def processAllRows (oracle : Nat → Nat → Except String Json) :
    List (List (String × String) × String) → Nat → List EnrichedRow
  | [], _ => []
  | r :: rs, i =>
    processRow (oracle i) r.2 r.1 :: processAllRows oracle rs (i + 1)

end Part000

namespace TexasFile

/-! ## `texasfile_enrichment.js`: the statewide variant -/

/-- Outcome of one fetch attempt inside `getTexasFileData`. -/
inductive FetchOutcome where
  | ok (j : Json)
  | http429
  | fail (msg : String)

/-- The error handler of `getTexasFileData`
(`texasfile_enrichment.js:191-199`): a non-429 error returns `null`; an
HTTP 429 waits a fixed delay and re-invokes the function with no attempt
counter.  The fuel argument bounds the modelled recursion depth; `none`
means the call is still retrying after that many attempts. -/
def getTexasFileDataRetry (responses : Nat → FetchOutcome) :
    Nat → Nat → Option (Option Json)
  | _, 0 => none
  | k, fuel + 1 =>
    match responses k with
    | .ok j => some (some j)
    | .fail _ => some none
    | .http429 => getTexasFileDataRetry responses (k + 1) fuel

/-- A server that rate-limits every request. -/
def all429 : Nat → FetchOutcome := fun _ => FetchOutcome.http429

end TexasFile

/-- C5 counterexample: in `texasfile_enrichment.js` an unbroken sequence
of HTTP 429 responses keeps `getTexasFileData` re-invoking itself with no
attempt bound: after 500 attempts the call has still not returned, so the
retry is not bounded by any fixed count and does not terminate on every
failing sequence. -/
theorem c5_retry_counterexample :
    TexasFile.getTexasFileDataRetry TexasFile.all429 0 500 = none := by rfl

/-- C5 (amended): in the `part_000` enrichment pass the claim holds: each
record's fetch is attempted at most `maxRetries + 1 = 3` times; when all
attempts fail, the thrown error is the final attempt's, the exponential
backoff delays `[2000, 4000]` were waited, the record is emitted with the
`error` field set, and processing is per-row, so subsequent records
continue.  In `texasfile_enrichment.js`, however, HTTP 429 triggers an
unbounded self-recursive retry. -/
theorem c5_bounded_retry :
    (∀ responses : Nat → Except String Json,
      (Part000.retryLoop responses 0 Part000.maxRetries).2.1
        ≤ Part000.maxRetries + 1)
    ∧ (∀ (responses : Nat → Except String Json) (e : String),
        (Part000.retryLoop responses 0 Part000.maxRetries).1
            = Except.error e →
          responses 2 = Except.error e
          ∧ (Part000.retryLoop responses 0 Part000.maxRetries).2.2
              = [2000, 4000])
    ∧ (∀ (responses : Nat → Except String Json) (e name : String)
        (row : List (String × String)),
        (Part000.retryLoop responses 0 Part000.maxRetries).1
            = Except.error e →
          Part000.processRow responses name row
            = { row := row, lien := none, error := some e })
    ∧ (∀ (oracle : Nat → Nat → Except String Json)
        (rows : List (List (String × String) × String)) (i : Nat),
        (Part000.processAllRows oracle rows i).length = rows.length) := by
  have hcases : ∀ responses : Nat → Except String Json,
      (Part000.retryLoop responses 0 Part000.maxRetries).2.1
          ≤ Part000.maxRetries + 1
      ∧ (∀ e, (Part000.retryLoop responses 0 Part000.maxRetries).1
            = Except.error e →
          responses 2 = Except.error e
          ∧ (Part000.retryLoop responses 0 Part000.maxRetries).2.2
              = [2000, 4000]) := by
    intro responses
    show (Part000.retryLoop responses 0 2).2.1 ≤ 3 ∧ _
    rcases h0 : responses 0 with e0 | v0 <;>
      rcases h1 : responses 1 with e1 | v1 <;>
        rcases h2 : responses 2 with e2 | v2 <;>
          refine ⟨by simp [Part000.retryLoop, Part000.maxRetries, h0, h1, h2],
            fun e he => ?_⟩ <;>
            simp only [Part000.retryLoop, Part000.maxRetries, h0, h1, h2] at he ⊢ <;>
              simp_all
  refine ⟨fun r => (hcases r).1, fun r e he => (hcases r).2 e he, ?_, ?_⟩
  · intro responses e name row he
    unfold Part000.processRow
    rw [he]
  · intro oracle rows
    induction rows with
    | nil => intro i; rfl
    | cons r rs ih =>
      intro i
      simp [Part000.processAllRows, ih]

/-- The all-failing oracle used by the C5 witness. -/
def c5FailingResponses : Nat → Except String Json :=
  fun _ => Except.error "socket hang up"

/-- Witness for C5: a concrete record whose every attempt fails is emitted
with the error field after 3 attempts and backoffs [2000, 4000]. -/
theorem c5_bounded_retry_witness :
    (Part000.retryLoop c5FailingResponses 0 Part000.maxRetries).2.1
        ≤ Part000.maxRetries + 1
    ∧ Part000.processRow c5FailingResponses "SMITH"
        [("county", "SMITH COUNTY")]
        = { row := [("county", "SMITH COUNTY")], lien := none,
            error := some "socket hang up" }
    ∧ (Part000.retryLoop c5FailingResponses 0 Part000.maxRetries).2.2
        = [2000, 4000] := by
  refine ⟨c5_bounded_retry.1 c5FailingResponses, ?_, ?_⟩
  · exact c5_bounded_retry.2.2.1 c5FailingResponses "socket hang up" "SMITH"
      [("county", "SMITH COUNTY")] (by rfl)
  · exact (c5_bounded_retry.2.1 c5FailingResponses "socket hang up"
      (by rfl)).2

namespace TexasFile

/-- The lien keyword list of `texasfile_enrichment.js:15-21`. -/
def LIEN_KEYWORDS : List String :=
  ["LIEN", "MECHANICS LIEN", "HOSPITAL LIEN",
   "TAX LIEN FEDERAL", "TAX LIEN STATE",
   "LIS PENDENS", "JUDGEMENT", "UCC",
   "NOTICE OF TRUSTEE SALE", "DEED OF TRUST",
   "RELEASE"]

/-- `(source.type || source.county_type || source.document_type ||
'').toUpperCase()`: throws when `source` is `null`/`undefined`, or when
the first truthy probe is not a string (`toUpperCase` is then not a
function). -/
def docTypeOf (source : Option Json) : Except Unit String := do
  let t ← jsGet source "type"
  let v : Option Json ←
    if truthy t then pure t
    else do
      let c ← jsGet source "county_type"
      if truthy c then pure c
      else do
        let d ← jsGet source "document_type"
        if truthy d then pure d else pure none
  match v with
  | none => pure ""
  | some (.str s) => pure (jsUpperStr s)
  | some _ => throw ()

/-- The filter predicate of `matchingRecords`
(`texasfile_enrichment.js:228-232`). -/
def hitMatches (hit : Json) : Except Unit Bool := do
  let source ← jsGet (some hit) "_source"
  let d ← docTypeOf source
  pure (LIEN_KEYWORDS.any fun k => containsStr d k)

/-- `record.a || record.b || ...` over a key list, with JS short-circuit
evaluation. -/
def firstTruthyOf (record : Option Json) : List String →
    Except Unit (Option Json)
  | [] => pure none
  | k :: rest => do
    let v ← jsGet record k
    if truthy v then pure v else firstTruthyOf record rest

/-- `new Date(v)` on the date field values: parseable date strings give
their (year, month, day); this models the `Date` values for the date
strings this pipeline produces. -/
def tfDateVal (v : Json) : Option (Nat × Nat × Nat) :=
  match v with
  | .str s => Part000.dateTriple s
  | _ => none

def pad2 (n : Nat) : String := if n < 10 then "0" ++ toString n else toString n

/-- `lastLienDate.toISOString().split('T')[0]`. -/
def isoOfTriple : Nat × Nat × Nat → String
  | (y, m, d) => toString y ++ "-" ++ pad2 m ++ "-" ++ pad2 d

/-- `record.county?.name?.toLowerCase() || record.county?.toLowerCase()
|| ''`, with short-circuiting (the second chain is only evaluated when
the first is falsy, and throws when `county` is truthy but not a
string). -/
def countyNameOf (record : Option Json) : Except Unit String := do
  let county ← jsGet record "county"
  let first : Option String ←
    match county with
    | none => pure none
    | some .null => pure none
    | some c =>
      match jsGetOpt (some c) "name" with
      | none => pure none
      | some .null => pure none
      | some (.str s) => pure (some (jsLowerStr s))
      | some _ => throw ()
  match first with
  | some s =>
    if s ≠ "" then pure s
    else countySecondBranch county
  | none => countySecondBranch county
where
  countySecondBranch (county : Option Json) : Except Unit String :=
    match county with
    | none => pure ""
    | some .null => pure ""
    | some (.str s) => pure (jsLowerStr s)
    | some _ => throw ()

/-- The URL accumulation of one matching record
(`texasfile_enrichment.js:261-273`). -/
def urlAccum (urls : List String) (record : Option Json) :
    Except Unit (List String) := do
  let u ← jsGet record "url"
  if truthy u then pure (setAdd urls (Part000.jsToString (u.getD .null)))
  else do
    let did ← jsGet record "document_id"
    if truthy did then do
      let county ← countyNameOf record
      if county ≠ "" then
        pure (setAdd urls ("https://www.texasfile.com/search/texas/"
          ++ county ++ "/county-clerk-records/"
          ++ Part000.jsToString (did.getD .null) ++ "/"))
      else pure urls
    else do
      let num ← jsGet record "number"
      if truthy num then
        pure (setAdd urls ("https://www.texasfile.com/document/"
          ++ Part000.jsToString (num.getD .null)))
      else pure urls

/-- Accumulator of the `matchingRecords.forEach` loop. -/
structure TFAgg where
  types : List String
  lastDate : Option (Nat × Nat × Nat)
  urls : List String

/-- One iteration of the `forEach` (`texasfile_enrichment.js:243-274`). -/
def stepTF (a : TFAgg) (hit : Json) : Except Unit TFAgg := do
  let record ← jsGet (some hit) "_source"
  let d ← docTypeOf record
  let a1 := if d ≠ "" then { a with types := setAdd a.types d } else a
  let ds ← firstTruthyOf record ["date_filed", "date", "recorded_date"]
  let a2 :=
    match ds with
    | some v =>
      match tfDateVal v with
      | some t =>
        match a1.lastDate with
        | none => { a1 with lastDate := some t }
        | some prev =>
          if Part000.tripleLt prev t then { a1 with lastDate := some t }
          else a1
      | none => a1
    | none => a1
  let urls ← urlAccum a2.urls record
  pure { a2 with urls := urls }

/-- `extractLienInfo` from `texasfile_enrichment.js:207-283`: the guard on
the nested `response.response.data.hits.hits` path, the `Array.isArray`
check, the keyword filter and the aggregation.  Unlike the `part_000`
variant there is no surrounding `try`, so a malformed hit (e.g. a `null`
element) propagates a `TypeError`, modelled by `Except.error`. -/
def extractLienInfo (apiResponse : Option Json) : Except Unit LienSummary := do
  let path := jsGetOpt (jsGetOpt (jsGetOpt (jsGetOpt (jsGetOpt apiResponse
    "response") "response") "data") "hits") "hits"
  if !truthy path then return emptyLienSummary
  else
    match path with
    | some (.arr records) => do
      let flags ← records.mapM hitMatches
      let matching := (records.zip flags).filterMap
        (fun rf => if rf.2 then some rf.1 else none)
      if matching.isEmpty then return emptyLienSummary
      else do
        let res ← matching.foldlM stepTF ⟨[], none, []⟩
        return (LienSummary.mk true res.types matching.length
          (res.lastDate.map isoOfTriple) res.urls)
    | _ => return emptyLienSummary

/-- The `formattedResponse` shape built by `getTexasFileData`
(`texasfile_enrichment.js:169-185`), parametrized by the `_source`
objects of its hits. -/
def mkFormattedResponse (sources : List Json) : Json :=
  Json.obj [("response", Json.obj [("response", Json.obj [("data",
    Json.obj [("hits", Json.obj [("total", Json.num sources.length),
      ("hits", Json.arr (sources.map (fun r =>
        Json.obj [("_source", r)])))])])])])]

/-- `apiData?.records || []`: the argument `processCSV` actually passes to
`extractLienInfo` (`texasfile_enrichment.js:322`). -/
def recordsArg (apiData : Option Json) : Option Json :=
  let r := jsGetOpt apiData "records"
  if truthy r then r else some (Json.arr [])

/-- The per-row merge `{...row, ...lienInfo}`
(`texasfile_enrichment.js:325-328`), reduced to the pair of row and
summary. -/
def processRowMerge (row : List (String × String)) (apiData : Option Json) :
    Except Unit (List (String × String) × LienSummary) :=
  (extractLienInfo (recordsArg apiData)).map (fun li => (row, li))

end TexasFile

/-- C10: for every row and every value `getTexasFileData` can return
(`null` or the `formattedResponse` shape, which has no `records` field),
the argument `apiData?.records || []` passed to `extractLienInfo` makes
its nested-hits guard fire, so the merged lien summary is always the
empty summary. -/
theorem c10_enrichment_always_empty (apiData : Option Json)
    (row : List (String × String))
    (h : apiData = none ∨
      ∃ sources, apiData = some (TexasFile.mkFormattedResponse sources)) :
    TexasFile.extractLienInfo (TexasFile.recordsArg apiData)
        = Except.ok emptyLienSummary
    ∧ TexasFile.processRowMerge row apiData
        = Except.ok (row, emptyLienSummary) := by
  have hrec : TexasFile.recordsArg apiData = some (Json.arr []) := by
    rcases h with rfl | ⟨sources, rfl⟩
    · rfl
    · rfl
  have hext : TexasFile.extractLienInfo (TexasFile.recordsArg apiData)
      = Except.ok emptyLienSummary := by
    rw [hrec]
    rfl
  exact ⟨hext, by rw [TexasFile.processRowMerge, hext]; rfl⟩

/-- Witness for C10: even a response carrying a UCC hit with a filing date
is flattened to the empty summary by the `records`-field mismatch. -/
theorem c10_enrichment_always_empty_witness :
    TexasFile.extractLienInfo (TexasFile.recordsArg
      (some (TexasFile.mkFormattedResponse
        [Json.obj [("type", Json.str "UCC"),
          ("date_filed", Json.str "2023-05-01")]])))
      = Except.ok emptyLienSummary :=
  (c10_enrichment_always_empty _ []
    (Or.inr ⟨[Json.obj [("type", Json.str "UCC"),
      ("date_filed", Json.str "2023-05-01")]], rfl⟩)).1

namespace NoMetro

/-! ### County resolver (`getAllCounties`, `lgb-scrape-NoMetro.js:35-99`) -/

/-- The configured excluded metro set. -/
def METRO_COUNTIES : List String :=
  ["TRAVIS COUNTY", "DALLAS COUNTY", "HARRIS COUNTY", "BEXAR COUNTY"]

/-- One endpoint fetch: a response body or a thrown network error. -/
inductive FetchResult where
  | ok (data : Json)
  | err

/-- The candidate keys of stage 1's row mapping
(`lgb-scrape-NoMetro.js:47`). -/
def countyKeys1 : List String := ["county", "county_name", "name", "sale_county"]

/-- Stage 1's row mapping (`lgb-scrape-NoMetro.js:44-49`): falsy rows give
`null`, strings are normalized, objects probe four keys for a truthy
candidate (normalizing a truthy non-string candidate throws on `.trim`);
other values have no such properties and give `null`. -/
def rowToName1 (row : Json) : Except Unit (Option String) :=
  match row with
  | .null => .ok none
  | .bool _ => .ok none
  | .num _ => .ok none
  | .str s => if s = "" then .ok none else .ok (some (normalizeCountyName s))
  | .arr _ => .ok none
  | .obj fs =>
    match Part000.firstTruthyField fs countyKeys1 with
    | some (.str s) => .ok (some (normalizeCountyName s))
    | some _ => .error ()
    | none => .ok none

/-- Stage 1's rows resolution (`lgb-scrape-NoMetro.js:38-42`): a `results`
array, the body itself as array, or `sale_counties || []` (mapping over a
truthy non-array throws). -/
def stage1Rows (data : Json) : Except Unit (List Json) :=
  match jsGetOpt (some data) "results" with
  | some (.arr xs) => .ok xs
  | _ =>
    match data with
    | .arr xs => .ok xs
    | _ =>
      match jsGetOpt (some data) "sale_counties" with
      | some v =>
        if truthy (some v) then
          match v with
          | .arr xs => .ok xs
          | _ => .error ()
        else .ok []
      | none => .ok []

/-- Stage 1 of the resolver: `none` falls through to the next stage
(network error, thrown mapping, or an empty filtered set). -/
def stage1 (r : FetchResult) : Option (List String) :=
  match r with
  | .err => none
  | .ok data =>
    match stage1Rows data with
    | .error _ => none
    | .ok rows =>
      match rows.mapM rowToName1 with
      | .error _ => none
      | .ok names0 =>
        let names := (names0.filterMap id).filter (fun n => n ≠ "")
        let filtered := (jsSetDedup names).filter
          (fun n => !METRO_COUNTIES.contains n)
        if filtered.isEmpty then none else some (insertionSortStr filtered)

/-- Stage 2's row mapping (`lgb-scrape-NoMetro.js:64`):
`normalizeCountyName(r.name)`; the access throws on a `null` row, a falsy
`name` normalizes to `''`, a truthy non-string `name` throws on `.trim`. -/
def rowToName2 (row : Json) : Except Unit String :=
  match row with
  | .null => .error ()
  | .obj fs =>
    match lookupField fs "name" with
    | none => .ok ""
    | some v =>
      if truthy (some v) then
        match v with
        | .str s => .ok (normalizeCountyName s)
        | _ => .error ()
      else .ok ""
  | _ => .ok ""

/-- Stage 2's rows resolution (`res.data?.results || []`); mapping over a
truthy non-array throws. -/
def stage2Rows (data : Json) : Except Unit (List Json) :=
  match jsGetOpt (some data) "results" with
  | some v =>
    if truthy (some v) then
      match v with
      | .arr xs => .ok xs
      | _ => .error ()
    else .ok []
  | none => .ok []

/-- Stage 2 of the resolver (`lgb-scrape-NoMetro.js:61-70`). -/
def stage2 (r : FetchResult) : Option (List String) :=
  match r with
  | .err => none
  | .ok data =>
    match stage2Rows data with
    | .error _ => none
    | .ok rows =>
      match rows.mapM rowToName2 with
      | .error _ => none
      | .ok names0 =>
        let names := names0.filter (fun n => n ≠ "")
        let filtered := (jsSetDedup names).filter
          (fun n => !METRO_COUNTIES.contains n)
        if filtered.isEmpty then none else some (insertionSortStr filtered)

/-- `normalizeCountyName(p.county)` in stage 3's page scan
(`lgb-scrape-NoMetro.js:83`). -/
def pName (p : Json) : Except Unit String :=
  match p with
  | .null => .error ()
  | .obj fs =>
    match lookupField fs "county" with
    | none => .ok ""
    | some v =>
      if truthy (some v) then
        match v with
        | .str s => .ok (normalizeCountyName s)
        | _ => .error ()
      else .ok ""
  | _ => .ok ""

/-- Classification of `!data?.results?.length` followed by
`data.results.forEach` for one stage-3 page: proceed on a non-empty
results array, break on a falsy length, throw when the length is truthy
but the value has no `forEach` (non-array). -/
inductive PageCase where
  | proceed (xs : List Json)
  | breakLoop
  | throwCase

def stage3Results (data : Json) : PageCase :=
  match jsGetOpt (some data) "results" with
  | some (.arr []) => .breakLoop
  | some (.arr xs) => .proceed xs
  | some (.str s) => if s = "" then .breakLoop else .throwCase
  | some (.obj fs) =>
    if truthy (lookupField fs "length") then .throwCase else .breakLoop
  | _ => .breakLoop

/-- The stage-3 page fold: add each page row's normalized county to the
set unless it is a metro county. -/
def stage3Fold (xs : List Json) (acc : List String) :
    Except Unit (List String) :=
  xs.foldlM (fun a p => do
    let n ← pName p
    pure (if METRO_COUNTIES.contains n then a else setAdd a n)) acc

/-- Stage 3 of the resolver (`lgb-scrape-NoMetro.js:73-95`): paginate
`property_sales`, collecting non-metro county names into a set; any throw
is caught and the function returns `[]`; a normal break returns the
sorted set (which equals `[]` when the set is empty).  `none` means the
loop was still running after `fuel` pages. -/
def stage3Loop (pages : Nat → FetchResult) :
    Nat → Nat → List String → Option (List String)
  | _, 0, _ => none
  | offset, fuel + 1, acc =>
    match pages offset with
    | .err => some []
    | .ok data =>
      match stage3Results data with
      | .throwCase => some []
      | .breakLoop => some (insertionSortStr acc)
      | .proceed xs =>
        match stage3Fold xs acc with
        | .error _ => some []
        | .ok acc' =>
          if truthy (jsGetOpt (some data) "next") then
            stage3Loop pages (offset + 1000) fuel acc'
          else some (insertionSortStr acc')

/-- `getAllCounties` (`lgb-scrape-NoMetro.js:35-99` / `part_004:38-103`):
the three stages in order, first non-empty success wins. -/
def getAllCounties (r1 r2 : FetchResult) (pages : Nat → FetchResult)
    (fuel : Nat) : Option (List String) :=
  match stage1 r1 with
  | some l => some l
  | none =>
    match stage2 r2 with
    | some l => some l
    | none => stage3Loop pages 0 fuel []

theorem mem_setAdd (a s : String) (l : List String) :
    a ∈ setAdd l s ↔ a ∈ l ∨ a = s := by
  unfold setAdd
  split <;> rename_i h
  · constructor
    · exact Or.inl
    · rintro (hma | rfl)
      · exact hma
      · exact List.elem_iff.mp h
  · simp

theorem not_mem_filtered_sorted (m : String) (hm : m ∈ METRO_COUNTIES)
    (names : List String) :
    m ∉ insertionSortStr ((jsSetDedup names).filter
      (fun n => !METRO_COUNTIES.contains n)) := by
  intro hmem
  rw [mem_insertionSortStr] at hmem
  have hpair := List.mem_filter.mp hmem
  simp at hpair
  exact hpair.2 hm

theorem stage3Fold_invariant (m : String) (hm : m ∈ METRO_COUNTIES) :
    ∀ (xs : List Json) (acc acc' : List String), m ∉ acc →
      stage3Fold xs acc = .ok acc' → m ∉ acc' := by
  intro xs
  induction xs with
  | nil =>
    intro acc acc' hacc h
    cases h
    exact hacc
  | cons p ps ih =>
    intro acc acc' hacc h
    rcases hp : pName p with e | n
    · unfold stage3Fold at h
      rw [List.foldlM_cons, hp] at h
      cases h
    · unfold stage3Fold at h
      rw [List.foldlM_cons, hp] at h
      have h' : stage3Fold ps
          (if METRO_COUNTIES.contains n then acc else setAdd acc n)
          = .ok acc' := h
      by_cases hc : METRO_COUNTIES.contains n = true
      · rw [if_pos hc] at h'
        exact ih acc acc' hacc h'
      · rw [if_neg hc] at h'
        refine ih _ acc' ?_ h'
        rw [mem_setAdd]
        rintro (hma | rfl)
        · exact hacc hma
        · exact hc (List.elem_iff.mpr hm)

theorem stage3Loop_invariant (m : String) (hm : m ∈ METRO_COUNTIES)
    (pages : Nat → FetchResult) :
    ∀ (fuel offset : Nat) (acc out : List String), m ∉ acc →
      stage3Loop pages offset fuel acc = some out → m ∉ out := by
  intro fuel
  induction fuel with
  | zero =>
    intro offset acc out hacc h
    simp [stage3Loop] at h
  | succ fuel ih =>
    intro offset acc out hacc h
    rw [stage3Loop] at h
    split at h
    · cases h
      simp
    · split at h
      · cases h
        simp
      · cases h
        rw [mem_insertionSortStr]
        exact hacc
      · rename_i data _ xs _
        split at h
        · cases h
          simp
        · rename_i acc' hfold
          have hacc' := stage3Fold_invariant m hm xs acc acc' hacc hfold
          split at h
          · exact ih (offset + 1000) acc' out hacc' h
          · cases h
            rw [mem_insertionSortStr]
            exact hacc'

theorem stage1_excludes (m : String) (hm : m ∈ METRO_COUNTIES)
    (r : FetchResult) (l : List String) (h : stage1 r = some l) : m ∉ l := by
  unfold stage1 at h
  split at h
  · cases h
  · split at h
    · cases h
    · split at h
      · cases h
      · dsimp only at h
        split at h
        · cases h
        · cases h
          exact not_mem_filtered_sorted m hm _

theorem stage2_excludes (m : String) (hm : m ∈ METRO_COUNTIES)
    (r : FetchResult) (l : List String) (h : stage2 r = some l) : m ∉ l := by
  unfold stage2 at h
  split at h
  · cases h
  · split at h
    · cases h
    · split at h
      · cases h
      · dsimp only at h
        split at h
        · cases h
        · cases h
          exact not_mem_filtered_sorted m hm _

end NoMetro

/-- C8: a county of the configured excluded metro set never appears in the
resolver's output, whichever of the three fallback stages produced the raw
list. -/
theorem c8_metro_exclusion (r1 r2 : NoMetro.FetchResult)
    (pages : Nat → NoMetro.FetchResult) (fuel : Nat) (out : List String)
    (m : String) (hm : m ∈ NoMetro.METRO_COUNTIES)
    (hout : NoMetro.getAllCounties r1 r2 pages fuel = some out) :
    m ∉ out := by
  unfold NoMetro.getAllCounties at hout
  split at hout
  · rename_i l h1
    cases hout
    exact NoMetro.stage1_excludes m hm r1 _ h1
  · split at hout
    · rename_i l h2
      cases hout
      exact NoMetro.stage2_excludes m hm r2 _ h2
    · exact NoMetro.stage3Loop_invariant m hm pages fuel 0 [] out
        (by simp) hout

/-- Witness for C8: a stage-1 response naming both a metro and a non-metro
county resolves to the non-metro county only. -/
theorem c8_metro_exclusion_witness :
    NoMetro.getAllCounties
        (NoMetro.FetchResult.ok (Json.arr [Json.str "Travis, tx",
          Json.str "Smith"]))
        NoMetro.FetchResult.err (fun _ => NoMetro.FetchResult.err) 1
      = some ["SMITH COUNTY"]
    ∧ "TRAVIS COUNTY" ∉ (["SMITH COUNTY"] : List String) := by
  refine ⟨by rfl, ?_⟩
  exact c8_metro_exclusion
    (NoMetro.FetchResult.ok (Json.arr [Json.str "Travis, tx",
      Json.str "Smith"]))
    NoMetro.FetchResult.err (fun _ => NoMetro.FetchResult.err) 1
    ["SMITH COUNTY"] "TRAVIS COUNTY" (by decide) (by rfl)

/-! ## C4: `normalizeCountyName` postconditions and idempotence -/

/-- No two adjacent whitespace characters. -/
def noAdjWs : List Char → Bool
  | [] => true
  | [_] => true
  | a :: b :: rest => !(jsWs a && jsWs b) && noAdjWs (b :: rest)

/-- Every whitespace character is a plain space. -/
def wsOnlySpace (l : List Char) : Bool := l.all (fun c => !jsWs c || c == ' ')

/-- The first character (if any) is not whitespace. -/
def headNoWs : List Char → Bool
  | [] => true
  | c :: _ => !jsWs c

/-- The last character (if any) is not whitespace. -/
def lastNoWs : List Char → Bool
  | [] => true
  | [c] => !jsWs c
  | _ :: c :: rest => lastNoWs (c :: rest)

/-- A run of two (or more) spaces occurs. -/
def hasDoubleSpace : List Char → Bool
  | a :: b :: rest => (a == ' ' && b == ' ') || hasDoubleSpace (b :: rest)
  | _ => false

/-- The 26 lowercase ASCII letters. -/
def lowerChars : List Char :=
  ['a', 'b', 'c', 'd', 'e', 'f', 'g', 'h', 'i', 'j', 'k', 'l', 'm',
   'n', 'o', 'p', 'q', 'r', 's', 't', 'u', 'v', 'w', 'x', 'y', 'z']

theorem jsToUpper_eq_of_not_mem (c : Char) (h : c ∉ lowerChars) :
    jsToUpper c = c := by
  unfold jsToUpper
  split <;> first | rfl | (exact absurd (by decide) h)

theorem jsToUpper_idem (c : Char) : jsToUpper (jsToUpper c) = jsToUpper c := by
  by_cases h : c ∈ lowerChars
  · fin_cases h <;> rfl
  · rw [jsToUpper_eq_of_not_mem c h, jsToUpper_eq_of_not_mem c h]

theorem jsWs_jsToUpper (c : Char) : jsWs (jsToUpper c) = jsWs c := by
  by_cases h : c ∈ lowerChars
  · fin_cases h <;> rfl
  · rw [jsToUpper_eq_of_not_mem c h]

theorem noAdjWs_tail (a : Char) (t : List Char)
    (h : noAdjWs (a :: t) = true) : noAdjWs t = true := by
  cases t with
  | nil => rfl
  | cons d r =>
    rw [noAdjWs] at h
    simp only [Bool.and_eq_true] at h
    exact h.2

theorem noAdjWs_cons (c : Char) (t : List Char) (ht : noAdjWs t = true)
    (h : jsWs c = false ∨ headNoWs t = true) : noAdjWs (c :: t) = true := by
  cases t with
  | nil => rfl
  | cons d rest =>
    rw [noAdjWs]
    rcases h with h | h
    · simp [h, ht]
    · simp only [headNoWs, Bool.not_eq_true'] at h
      simp [h, ht]

theorem lastNoWs_cons (c : Char) (t : List Char) (h : t ≠ []) :
    lastNoWs (c :: t) = lastNoWs t := by
  cases t with
  | nil => exact absurd rfl h
  | cons d rest => rfl

theorem headNoWs_append (v z : List Char) (hv : v ≠ []) :
    headNoWs (v ++ z) = headNoWs v := by
  cases v with
  | nil => exact absurd rfl hv
  | cons c rest => rfl

theorem lastNoWs_append (v z : List Char) (hz : z ≠ []) :
    lastNoWs (v ++ z) = lastNoWs z := by
  induction v with
  | nil => rfl
  | cons a rest ih =>
    rw [List.cons_append,
      lastNoWs_cons a (rest ++ z) (by simp [hz]), ih]

theorem lastNoWs_eq_headNoWs_reverse (l : List Char) :
    lastNoWs l = headNoWs l.reverse := by
  induction l with
  | nil => rfl
  | cons c rest ih =>
    cases rest with
    | nil => rfl
    | cons d r2 =>
      have h1 : lastNoWs (c :: d :: r2) = lastNoWs (d :: r2) := rfl
      have h2 : headNoWs ((c :: d :: r2).reverse)
          = headNoWs ((d :: r2).reverse) := by
        rw [List.reverse_cons]
        exact headNoWs_append _ _ (by simp)
      rw [h1, h2, ih]

theorem headNoWs_eq_lastNoWs_reverse (l : List Char) :
    headNoWs l = lastNoWs l.reverse := by
  rw [lastNoWs_eq_headNoWs_reverse, List.reverse_reverse]

theorem hasDoubleSpace_eq_false (l : List Char) (h : noAdjWs l = true) :
    hasDoubleSpace l = false := by
  induction l with
  | nil => rfl
  | cons a rest ih =>
    cases rest with
    | nil => rfl
    | cons b r2 =>
      rw [noAdjWs] at h
      simp only [Bool.and_eq_true] at h
      obtain ⟨hab, hrest⟩ := h
      rw [hasDoubleSpace, ih hrest]
      simp only [Bool.or_false]
      by_cases ha : a = ' '
      · by_cases hb : b = ' '
        · subst ha; subst hb; simp [jsWs] at hab
        · simp [hb]
      · simp [ha]

theorem mem_of_mem_take {α : Type} {a : α} :
    ∀ (n : Nat) (l : List α), a ∈ l.take n → a ∈ l := by
  intro n
  induction n with
  | zero => intro l h; simp at h
  | succ n ih =>
    intro l h
    cases l with
    | nil => simp at h
    | cons c rest =>
      rw [List.take_succ_cons] at h
      rcases List.mem_cons.mp h with rfl | h
      · exact List.mem_cons_self _ _
      · exact List.mem_cons_of_mem _ (ih rest h)

theorem wsOnlySpace_take (n : Nat) (l : List Char)
    (h : wsOnlySpace l = true) : wsOnlySpace (l.take n) = true := by
  rw [wsOnlySpace, List.all_eq_true] at h ⊢
  intro c hc
  exact h c (mem_of_mem_take n l hc)

theorem noAdjWs_take (n : Nat) (l : List Char) (h : noAdjWs l = true) :
    noAdjWs (l.take n) = true := by
  induction l generalizing n with
  | nil => simp [List.take_nil, noAdjWs]
  | cons c rest ih =>
    cases n with
    | zero => rfl
    | succ n =>
      rw [List.take_succ_cons]
      cases rest with
      | nil => cases n <;> rfl
      | cons d r2 =>
        rw [noAdjWs] at h
        simp only [Bool.and_eq_true] at h
        obtain ⟨hcd, hrest⟩ := h
        cases n with
        | zero => rfl
        | succ n =>
          rw [List.take_succ_cons, noAdjWs]
          have htail := ih (n + 1) hrest
          rw [List.take_succ_cons] at htail
          simp [hcd, htail]

theorem headNoWs_take (n : Nat) (l : List Char) (h : headNoWs l = true) :
    headNoWs (l.take n) = true := by
  cases n with
  | zero => rfl
  | succ n =>
    cases l with
    | nil => rfl
    | cons c rest => exact h

theorem headNoWs_map (l : List Char) :
    headNoWs (l.map jsToUpper) = headNoWs l := by
  cases l with
  | nil => rfl
  | cons c rest => simp [headNoWs, jsWs_jsToUpper]

theorem lastNoWs_map (l : List Char) :
    lastNoWs (l.map jsToUpper) = lastNoWs l := by
  induction l with
  | nil => rfl
  | cons c rest ih =>
    cases rest with
    | nil => simp [lastNoWs, jsWs_jsToUpper]
    | cons d r2 =>
      have h1 : lastNoWs (List.map jsToUpper (c :: d :: r2))
          = lastNoWs (List.map jsToUpper (d :: r2)) := by
        rw [List.map_cons]
        exact lastNoWs_cons _ _ (by simp)
      rw [h1, lastNoWs_cons c (d :: r2) (by simp)]
      exact ih

theorem noAdjWs_map (l : List Char) (h : noAdjWs l = true) :
    noAdjWs (l.map jsToUpper) = true := by
  induction l with
  | nil => rfl
  | cons c rest ih =>
    cases rest with
    | nil => rfl
    | cons d r2 =>
      simp only [noAdjWs, Bool.and_eq_true] at h
      obtain ⟨hcd, hrest⟩ := h
      have hrec := ih hrest
      simp only [List.map_cons] at hrec ⊢
      rw [noAdjWs]
      simp only [Bool.and_eq_true]
      refine ⟨?_, hrec⟩
      rw [jsWs_jsToUpper, jsWs_jsToUpper]
      exact hcd

theorem upperStable_map (l : List Char) :
    (l.map jsToUpper).map jsToUpper = l.map jsToUpper := by
  rw [List.map_map]
  exact List.map_congr_left (fun c _ => jsToUpper_idem c)

theorem upperStable_take (n : Nat) (l : List Char)
    (h : l.map jsToUpper = l) : (l.take n).map jsToUpper = l.take n := by
  rw [List.map_take, h]

theorem upperStable_append (v z : List Char) (hv : v.map jsToUpper = v)
    (hz : z.map jsToUpper = z) : (v ++ z).map jsToUpper = v ++ z := by
  rw [List.map_append, hv, hz]

theorem headNoWs_collapse_true (l : List Char) :
    headNoWs (NoMetro.collapseAux true l) = true := by
  induction l with
  | nil => rfl
  | cons c rest ih =>
    rw [NoMetro.collapseAux]
    by_cases h : jsWs c = true
    · rw [if_pos h, if_pos rfl]
      exact ih
    · rw [if_neg h]
      simp only [headNoWs, Bool.not_eq_true']
      exact Bool.not_eq_true _ ▸ h

theorem noAdjWs_collapse (pw : Bool) (l : List Char) :
    noAdjWs (NoMetro.collapseAux pw l) = true := by
  induction l generalizing pw with
  | nil => rfl
  | cons c rest ih =>
    rw [NoMetro.collapseAux]
    by_cases h : jsWs c = true
    · rw [if_pos h]
      cases pw
      · rw [if_neg (by simp)]
        exact noAdjWs_cons ' ' _ (ih true)
          (Or.inr (headNoWs_collapse_true rest))
      · rw [if_pos rfl]
        exact ih true
    · rw [if_neg h]
      exact noAdjWs_cons c _ (ih false)
        (Or.inl (Bool.not_eq_true _ ▸ h))

theorem wsOnlySpace_collapse (pw : Bool) (l : List Char) :
    wsOnlySpace (NoMetro.collapseAux pw l) = true := by
  induction l generalizing pw with
  | nil => rfl
  | cons c rest ih =>
    rw [NoMetro.collapseAux]
    by_cases h : jsWs c = true
    · rw [if_pos h]
      cases pw
      · rw [if_neg (by simp)]
        rw [wsOnlySpace, List.all_cons]
        simp only [Bool.and_eq_true]
        exact ⟨by simp, ih true⟩
      · rw [if_pos rfl]
        exact ih true
    · rw [if_neg h]
      rw [wsOnlySpace, List.all_cons]
      simp only [Bool.and_eq_true]
      exact ⟨by simp [h], ih false⟩

theorem headNoWs_collapse_false (l : List Char) (h : headNoWs l = true) :
    headNoWs (NoMetro.collapseAux false l) = true := by
  cases l with
  | nil => rfl
  | cons c rest =>
    simp only [headNoWs, Bool.not_eq_true'] at h
    rw [NoMetro.collapseAux, if_neg (by simp [h])]
    simpa [headNoWs] using h

theorem collapse_ne_nil (pw : Bool) (l : List Char)
    (h : lastNoWs l = true) (hne : l ≠ []) :
    NoMetro.collapseAux pw l ≠ [] := by
  induction l generalizing pw with
  | nil => exact absurd rfl hne
  | cons c rest ih =>
    rw [NoMetro.collapseAux]
    by_cases hc : jsWs c = true
    · rw [if_pos hc]
      cases rest with
      | nil => simp [lastNoWs, hc] at h
      | cons d r2 =>
        cases pw
        · rw [if_neg (by simp)]
          simp
        · rw [if_pos rfl]
          exact ih true h (by simp)
    · rw [if_neg hc]
      simp

theorem lastNoWs_collapse (pw : Bool) (l : List Char)
    (h : lastNoWs l = true) : lastNoWs (NoMetro.collapseAux pw l) = true := by
  induction l generalizing pw with
  | nil => rfl
  | cons c rest ih =>
    cases rest with
    | nil =>
      have hc : jsWs c = false := by simpa [lastNoWs] using h
      rw [NoMetro.collapseAux, if_neg (by simp [hc])]
      show lastNoWs [c] = true
      simp [lastNoWs, hc]
    | cons d r2 =>
      have htail : lastNoWs (d :: r2) = true := h
      rw [NoMetro.collapseAux]
      by_cases hc : jsWs c = true
      · rw [if_pos hc]
        cases pw
        · rw [if_neg (by simp)]
          rw [lastNoWs_cons ' ' _
            (collapse_ne_nil true (d :: r2) htail (by simp))]
          exact ih true htail
        · rw [if_pos rfl]
          exact ih true htail
      · rw [if_neg hc]
        cases hcol : NoMetro.collapseAux false (d :: r2) with
        | nil => simp [lastNoWs, hc]
        | cons e r3 =>
          show lastNoWs (e :: r3) = true
          rw [← hcol]
          exact ih false htail

theorem upperStable_collapse (pw : Bool) (l : List Char)
    (h : l.map jsToUpper = l) :
    (NoMetro.collapseAux pw l).map jsToUpper
      = NoMetro.collapseAux pw l := by
  induction l generalizing pw with
  | nil => rfl
  | cons c rest ih =>
    rw [List.map_cons] at h
    have hc : jsToUpper c = c := (List.cons.injEq _ _ _ _ ▸ h).1
    have hrest : rest.map jsToUpper = rest := (List.cons.injEq _ _ _ _ ▸ h).2
    rw [NoMetro.collapseAux]
    by_cases hws : jsWs c = true
    · rw [if_pos hws]
      cases pw
      · rw [if_neg (by simp)]
        rw [List.map_cons, ih true hrest]
        rfl
      · rw [if_pos rfl]
        exact ih true hrest
    · rw [if_neg hws]
      rw [List.map_cons, hc, ih false hrest]

theorem headNoWs_dropWhile (l : List Char) :
    headNoWs (l.dropWhile jsWs) = true := by
  induction l with
  | nil => rfl
  | cons c rest ih =>
    by_cases h : jsWs c = true
    · rw [List.dropWhile_cons_of_pos h]
      exact ih
    · rw [List.dropWhile_cons_of_neg (by simp [h])]
      simpa [headNoWs] using h

theorem lastNoWs_dropWhile (l : List Char) (h : lastNoWs l = true) :
    lastNoWs (l.dropWhile jsWs) = true := by
  induction l with
  | nil => rfl
  | cons c rest ih =>
    by_cases hc : jsWs c = true
    · rw [List.dropWhile_cons_of_pos hc]
      cases rest with
      | nil => simp [lastNoWs, hc] at h
      | cons d r2 => exact ih h
    · rw [List.dropWhile_cons_of_neg (by simp [hc])]
      exact h

theorem headNoWs_trimChars (l : List Char) : headNoWs (trimChars l) = true := by
  unfold trimChars
  rw [← lastNoWs_eq_headNoWs_reverse]
  apply lastNoWs_dropWhile
  rw [← headNoWs_eq_lastNoWs_reverse]
  exact headNoWs_dropWhile l

theorem lastNoWs_trimChars (l : List Char) : lastNoWs (trimChars l) = true := by
  unfold trimChars
  rw [lastNoWs_eq_headNoWs_reverse, List.reverse_reverse]
  exact headNoWs_dropWhile _

theorem dropWhile_eq_self_of_headNoWs (l : List Char)
    (h : headNoWs l = true) : l.dropWhile jsWs = l := by
  cases l with
  | nil => rfl
  | cons c rest =>
    simp only [headNoWs, Bool.not_eq_true'] at h
    rw [List.dropWhile_cons_of_neg (by simp [h])]

theorem take_of_append_suffix (v suf l : List Char) (h : v ++ suf = l) :
    NoMetro.dropSuffixN l suf.length = v := by
  subst h
  unfold NoMetro.dropSuffixN
  rw [List.length_append, Nat.add_sub_cancel]
  exact List.take_left v suf

theorem exists_of_lastNoWs_false :
    ∀ (v : List Char), lastNoWs v = false →
      ∃ v' w, v = v' ++ [w] ∧ jsWs w = true := by
  intro v
  induction v with
  | nil => intro h; cases h
  | cons a rest ih =>
    intro h
    cases rest with
    | nil =>
      refine ⟨[], a, rfl, ?_⟩
      simpa [lastNoWs] using h
    | cons b r2 =>
      obtain ⟨v', w, heq, hw⟩ := ih h
      exact ⟨a :: v', w, by rw [heq, List.cons_append], hw⟩

theorem lastNoWs_of_append_ws_head (v : List Char) (c : Char)
    (z : List Char) (hadj : noAdjWs (v ++ c :: z) = true)
    (hc : jsWs c = true) : lastNoWs v = true := by
  induction v with
  | nil => rfl
  | cons a rest ih =>
    cases rest with
    | nil =>
      rw [List.cons_append, List.nil_append, noAdjWs] at hadj
      simp only [Bool.and_eq_true] at hadj
      have h1 := hadj.1
      simp only [hc, Bool.and_true, Bool.not_eq_true', Bool.not_eq_true] at h1
      simp [lastNoWs, h1]
    | cons b r2 =>
      rw [List.cons_append] at hadj
      have htail := noAdjWs_tail a _ hadj
      rw [lastNoWs_cons a (b :: r2) (by simp)]
      exact ih htail

theorem suffix_extend_of_lastNoWs_false (v z l : List Char)
    (hsp : wsOnlySpace l = true) (heq : v ++ z = l)
    (hv : lastNoWs v = false) : (' ' :: z).isSuffixOf l = true := by
  obtain ⟨v', w, rfl, hw⟩ := exists_of_lastNoWs_false v hv
  have hwmem : w ∈ l := by
    rw [← heq]
    simp
  have hwsp : w = ' ' := by
    rw [wsOnlySpace, List.all_eq_true] at hsp
    have := hsp w hwmem
    simp only [hw, Bool.not_true, Bool.false_or, beq_iff_eq] at this
    exact this
  subst hwsp
  rw [List.isSuffixOf_iff_suffix]
  refine ⟨v', ?_⟩
  rw [← heq, List.append_assoc]
  rfl

theorem isSuffixOf_false_of_getLast_ne (suf l : List Char) (c d : Char)
    (hsuf : suf.getLast? = some c) (hl : l.getLast? = some d)
    (hne : c ≠ d) : suf.isSuffixOf l = false := by
  by_contra hcon
  rw [Bool.not_eq_false, List.isSuffixOf_iff_suffix] at hcon
  obtain ⟨t, ht⟩ := hcon
  have hsufne : suf ≠ [] := by
    intro h0
    rw [h0] at hsuf
    cases hsuf
  have hll : l.getLast? = suf.getLast? := by
    rw [← ht]
    exact List.getLast?_append_of_ne_nil t hsufne
  rw [hl, hsuf] at hll
  exact hne (Option.some.inj hll).symm

theorem noAdjWs_append (v z : List Char) (hv : noAdjWs v = true)
    (hz : noAdjWs z = true)
    (h : lastNoWs v = true ∨ headNoWs z = true) :
    noAdjWs (v ++ z) = true := by
  induction v with
  | nil => exact hz
  | cons a rest ih =>
    cases rest with
    | nil =>
      apply noAdjWs_cons a z hz
      rcases h with h | h
      · left
        simp only [lastNoWs, Bool.not_eq_true'] at h
        exact h
      · right
        exact h
    | cons b r2 =>
      have h2 : lastNoWs (b :: r2) = true ∨ headNoWs z = true := by
        rcases h with h | h
        · left
          rwa [lastNoWs_cons a (b :: r2) (by simp)] at h
        · right
          exact h
      have hrec := ih (noAdjWs_tail a _ hv) h2
      simp only [List.cons_append, noAdjWs, Bool.and_eq_true] at hrec ⊢
      rw [noAdjWs, Bool.and_eq_true] at hv
      exact ⟨hv.1, hrec⟩

theorem wsOnlySpace_append (v z : List Char) (hv : wsOnlySpace v = true)
    (hz : wsOnlySpace z = true) : wsOnlySpace (v ++ z) = true := by
  rw [wsOnlySpace, List.all_eq_true] at hv hz ⊢
  intro c hc
  rcases List.mem_append.mp hc with h | h
  · exact hv c h
  · exact hz c h

theorem strip_cases (u : List Char) :
    NoMetro.stripStateSuffix u = u ∨
      ∃ n, NoMetro.stripStateSuffix u = u.take n := by
  rw [NoMetro.stripStateSuffix]
  split_ifs with h1 h2 h3 h4
  · exact Or.inr ⟨u.length - 5, rfl⟩
  · exact Or.inr ⟨u.length - 4, rfl⟩
  · exact Or.inr ⟨u.length - 4, rfl⟩
  · exact Or.inr ⟨u.length - 3, rfl⟩
  · exact Or.inl rfl

theorem lastNoWs_strip (u : List Char) (hadj : noAdjWs u = true)
    (hsp : wsOnlySpace u = true) (hlast : lastNoWs u = true) :
    lastNoWs (NoMetro.stripStateSuffix u) = true := by
  rw [NoMetro.stripStateSuffix]
  split_ifs with h1 h2 h3 h4
  · obtain ⟨v, hv⟩ := List.isSuffixOf_iff_suffix.mp h1
    have hveq : NoMetro.dropSuffixN u 5 = v := take_of_append_suffix v _ u hv
    rw [hveq]
    rw [← hv] at hadj
    exact lastNoWs_of_append_ws_head v ' ' (", TX".data) hadj (by decide)
  · obtain ⟨v, hv⟩ := List.isSuffixOf_iff_suffix.mp h2
    have hveq : NoMetro.dropSuffixN u 4 = v := take_of_append_suffix v _ u hv
    rw [hveq]
    by_contra hcon
    rw [Bool.not_eq_true] at hcon
    exact h1 (suffix_extend_of_lastNoWs_false v (", TX".data) u hsp hv hcon)
  · obtain ⟨v, hv⟩ := List.isSuffixOf_iff_suffix.mp h3
    have hveq : NoMetro.dropSuffixN u 4 = v := take_of_append_suffix v _ u hv
    rw [hveq]
    rw [← hv] at hadj
    exact lastNoWs_of_append_ws_head v ' ' (",TX".data) hadj (by decide)
  · obtain ⟨v, hv⟩ := List.isSuffixOf_iff_suffix.mp h4
    have hveq : NoMetro.dropSuffixN u 3 = v := take_of_append_suffix v _ u hv
    rw [hveq]
    by_contra hcon
    rw [Bool.not_eq_true] at hcon
    exact h3 (suffix_extend_of_lastNoWs_false v (",TX".data) u hsp hv hcon)
  · exact hlast

theorem collapse_fix (l : List Char) (hadj : noAdjWs l = true)
    (hsp : wsOnlySpace l = true) :
    NoMetro.collapseAux false l = l ∧
      (headNoWs l = true → NoMetro.collapseAux true l = l) := by
  induction l with
  | nil => exact ⟨rfl, fun _ => rfl⟩
  | cons c rest ih =>
    have hspt : wsOnlySpace rest = true := by
      rw [wsOnlySpace, List.all_eq_true] at hsp ⊢
      intro x hx
      exact hsp x (List.mem_cons_of_mem c hx)
    obtain ⟨ih1, ih2⟩ := ih (noAdjWs_tail c rest hadj) hspt
    by_cases hc : jsWs c = true
    · have hcsp : c = ' ' := by
        rw [wsOnlySpace, List.all_eq_true] at hsp
        have := hsp c (List.mem_cons_self c rest)
        simp only [hc, Bool.not_true, Bool.false_or, beq_iff_eq] at this
        exact this
      have hrest : NoMetro.collapseAux true rest = rest := by
        apply ih2
        cases rest with
        | nil => rfl
        | cons d r2 =>
          rw [noAdjWs, Bool.and_eq_true] at hadj
          have hd := hadj.1
          simp only [hc, Bool.true_and, Bool.not_eq_true'] at hd
          simp [headNoWs, hd]
      constructor
      · rw [NoMetro.collapseAux, if_pos hc, if_neg (by simp), hrest, hcsp]
      · intro hh
        rw [headNoWs] at hh
        simp [hc] at hh
    · constructor
      · rw [NoMetro.collapseAux, if_neg (by simp [hc]), ih1]
      · intro _
        rw [NoMetro.collapseAux, if_neg (by simp [hc]), ih1]

theorem strip_fix (m : List Char)
    (h : (" COUNTY".data).isSuffixOf m = true) :
    NoMetro.stripStateSuffix m = m := by
  obtain ⟨v, hv⟩ := List.isSuffixOf_iff_suffix.mp h
  have hm : m.getLast? = some 'Y' := by
    rw [← hv, List.getLast?_append_of_ne_nil v (by decide)]
    rfl
  have h1 := isSuffixOf_false_of_getLast_ne (" , TX".data) m 'X' 'Y'
    (by decide) hm (by decide)
  have h2 := isSuffixOf_false_of_getLast_ne (", TX".data) m 'X' 'Y'
    (by decide) hm (by decide)
  have h3 := isSuffixOf_false_of_getLast_ne (" ,TX".data) m 'X' 'Y'
    (by decide) hm (by decide)
  have h4 := isSuffixOf_false_of_getLast_ne (",TX".data) m 'X' 'Y'
    (by decide) hm (by decide)
  rw [NoMetro.stripStateSuffix]
  simp [h1, h2, h3, h4]

theorem strip_props (u : List Char) (hadju : noAdjWs u = true)
    (hspu : wsOnlySpace u = true) (hheadu : headNoWs u = true)
    (hlastu : lastNoWs u = true) (hupu : u.map jsToUpper = u) :
    noAdjWs (NoMetro.stripStateSuffix u) = true ∧
    wsOnlySpace (NoMetro.stripStateSuffix u) = true ∧
    headNoWs (NoMetro.stripStateSuffix u) = true ∧
    lastNoWs (NoMetro.stripStateSuffix u) = true ∧
    (NoMetro.stripStateSuffix u).map jsToUpper
      = NoMetro.stripStateSuffix u := by
  refine ⟨?_, ?_, ?_, lastNoWs_strip u hadju hspu hlastu, ?_⟩
  · rcases strip_cases u with hc | ⟨n, hc⟩
    · rw [hc]
      exact hadju
    · rw [hc]
      exact noAdjWs_take n u hadju
  · rcases strip_cases u with hc | ⟨n, hc⟩
    · rw [hc]
      exact hspu
    · rw [hc]
      exact wsOnlySpace_take n u hspu
  · rcases strip_cases u with hc | ⟨n, hc⟩
    · rw [hc]
      exact hheadu
    · rw [hc]
      exact headNoWs_take n u hheadu
  · rcases strip_cases u with hc | ⟨n, hc⟩
    · rw [hc]
      exact hupu
    · rw [hc]
      exact upperStable_take n u hupu

theorem county_props (w : List Char) (hadjw : noAdjWs w = true)
    (hspw : wsOnlySpace w = true) (hheadw : headNoWs w = true)
    (hlastw : lastNoWs w = true) (hupw : w.map jsToUpper = w)
    (hwne : w ≠ []) :
    noAdjWs (if (" COUNTY".data).isSuffixOf w then w
      else w ++ " COUNTY".data) = true ∧
    wsOnlySpace (if (" COUNTY".data).isSuffixOf w then w
      else w ++ " COUNTY".data) = true ∧
    headNoWs (if (" COUNTY".data).isSuffixOf w then w
      else w ++ " COUNTY".data) = true ∧
    lastNoWs (if (" COUNTY".data).isSuffixOf w then w
      else w ++ " COUNTY".data) = true ∧
    (if (" COUNTY".data).isSuffixOf w then w
      else w ++ " COUNTY".data).map jsToUpper
      = (if (" COUNTY".data).isSuffixOf w then w
        else w ++ " COUNTY".data) ∧
    (" COUNTY".data).isSuffixOf (if (" COUNTY".data).isSuffixOf w then w
      else w ++ " COUNTY".data) = true := by
  by_cases hcty : (" COUNTY".data).isSuffixOf w = true
  · rw [if_pos hcty]
    exact ⟨hadjw, hspw, hheadw, hlastw, hupw, hcty⟩
  · rw [if_neg hcty]
    refine ⟨?_, ?_, ?_, ?_, ?_, ?_⟩
    · exact noAdjWs_append w _ hadjw (by decide) (Or.inl hlastw)
    · exact wsOnlySpace_append w _ hspw (by decide)
    · rw [headNoWs_append w _ hwne]
      exact hheadw
    · rw [lastNoWs_append w _ (by decide)]
      decide
    · exact upperStable_append w _ hupw (by decide)
    · exact List.isSuffixOf_iff_suffix.mpr ⟨w, rfl⟩

theorem normalizeCore_props (l : List Char)
    (h : NoMetro.stripStateSuffix
        (NoMetro.collapseAux false ((trimChars l).map jsToUpper)) ≠ []) :
    noAdjWs (NoMetro.normalizeCore l) = true ∧
    wsOnlySpace (NoMetro.normalizeCore l) = true ∧
    headNoWs (NoMetro.normalizeCore l) = true ∧
    lastNoWs (NoMetro.normalizeCore l) = true ∧
    (NoMetro.normalizeCore l).map jsToUpper = NoMetro.normalizeCore l ∧
    (" COUNTY".data).isSuffixOf (NoMetro.normalizeCore l) = true := by
  have hheadt : headNoWs ((trimChars l).map jsToUpper) = true := by
    rw [headNoWs_map]
    exact headNoWs_trimChars l
  have hlastt : lastNoWs ((trimChars l).map jsToUpper) = true := by
    rw [lastNoWs_map]
    exact lastNoWs_trimChars l
  obtain ⟨hadjw, hspw, hheadw, hlastw, hupw⟩ :=
    strip_props (NoMetro.collapseAux false ((trimChars l).map jsToUpper))
      (noAdjWs_collapse false _) (wsOnlySpace_collapse false _)
      (headNoWs_collapse_false _ hheadt) (lastNoWs_collapse false _ hlastt)
      (upperStable_collapse false _ (upperStable_map (trimChars l)))
  have hmain := county_props _ hadjw hspw hheadw hlastw hupw h
  have hcore : NoMetro.normalizeCore l
      = (if (" COUNTY".data).isSuffixOf
            (NoMetro.stripStateSuffix
              (NoMetro.collapseAux false ((trimChars l).map jsToUpper)))
         then NoMetro.stripStateSuffix
              (NoMetro.collapseAux false ((trimChars l).map jsToUpper))
         else NoMetro.stripStateSuffix
              (NoMetro.collapseAux false ((trimChars l).map jsToUpper))
           ++ " COUNTY".data) := rfl
  rw [hcore]
  exact hmain

theorem trimChars_eq_self (m : List Char) (hhead : headNoWs m = true)
    (hlast : lastNoWs m = true) : trimChars m = m := by
  rw [trimChars, dropWhile_eq_self_of_headNoWs m hhead,
      dropWhile_eq_self_of_headNoWs m.reverse
        (by rw [← lastNoWs_eq_headNoWs_reverse]; exact hlast),
      List.reverse_reverse]

theorem normalizeCore_fix (m : List Char)
    (hadj : noAdjWs m = true) (hsp : wsOnlySpace m = true)
    (hhead : headNoWs m = true) (hlast : lastNoWs m = true)
    (hup : m.map jsToUpper = m)
    (hcty : (" COUNTY".data).isSuffixOf m = true) :
    NoMetro.normalizeCore m = m := by
  have hcore : NoMetro.normalizeCore m
      = (if (" COUNTY".data).isSuffixOf
            (NoMetro.stripStateSuffix
              (NoMetro.collapseAux false ((trimChars m).map jsToUpper)))
         then NoMetro.stripStateSuffix
              (NoMetro.collapseAux false ((trimChars m).map jsToUpper))
         else NoMetro.stripStateSuffix
              (NoMetro.collapseAux false ((trimChars m).map jsToUpper))
           ++ " COUNTY".data) := rfl
  rw [hcore, trimChars_eq_self m hhead hlast, hup,
      (collapse_fix m hadj hsp).1, strip_fix m hcty, if_pos hcty]

/-- C4 counterexample.  The claimed postcondition and idempotence fail on
falsy and on whitespace-only input: `normalizeCountyName ""` is `""`,
which does not end in `" COUNTY"`; and `normalizeCountyName "   "` is
`" COUNTY"`, whose renormalisation is `"COUNTY COUNTY"`, so normalising
twice differs from normalising once. -/
theorem c4_normalize_counterexample :
    (" COUNTY".data).isSuffixOf (NoMetro.normalizeCountyName "").data
        = false ∧
    NoMetro.normalizeCountyName (NoMetro.normalizeCountyName "   ")
        ≠ NoMetro.normalizeCountyName "   " := by
  decide

/-- C4 (amended).  For every input whose trimmed, uppercased,
whitespace-collapsed and `", TX"`-stripped core is non-empty, the output
of `normalizeCountyName` is uppercase (fixed by `toUpperCase`), contains
no run of two spaces, does not end in `", TX"`, ends in `" COUNTY"`, and
`normalizeCountyName` is idempotent there. -/
theorem c4_normalize_county (raw : String)
    (h : NoMetro.stripStateSuffix
        (NoMetro.collapseAux false
          ((trimChars raw.data).map jsToUpper)) ≠ []) :
    (NoMetro.normalizeCountyName raw).data.map jsToUpper
        = (NoMetro.normalizeCountyName raw).data ∧
    hasDoubleSpace (NoMetro.normalizeCountyName raw).data = false ∧
    (", TX".data).isSuffixOf (NoMetro.normalizeCountyName raw).data
        = false ∧
    (" COUNTY".data).isSuffixOf (NoMetro.normalizeCountyName raw).data
        = true ∧
    NoMetro.normalizeCountyName (NoMetro.normalizeCountyName raw)
        = NoMetro.normalizeCountyName raw := by
  have hne : raw ≠ "" := by
    intro h0
    rw [h0] at h
    exact h rfl
  have hval : NoMetro.normalizeCountyName raw
      = ⟨NoMetro.normalizeCore raw.data⟩ := by
    rw [NoMetro.normalizeCountyName, if_neg hne]
  obtain ⟨hadj, hsp, hhead, hlast, hup, hcty⟩ := normalizeCore_props raw.data h
  have hdata : (NoMetro.normalizeCountyName raw).data
      = NoMetro.normalizeCore raw.data := by
    rw [hval]
  have hne2 : NoMetro.normalizeCore raw.data ≠ [] := by
    intro h0
    rw [h0] at hcty
    exact absurd hcty (by decide)
  refine ⟨?_, ?_, ?_, ?_, ?_⟩
  · rw [hdata]
    exact hup
  · rw [hdata]
    exact hasDoubleSpace_eq_false _ hadj
  · rw [hdata]
    obtain ⟨v, hv⟩ := List.isSuffixOf_iff_suffix.mp hcty
    have hm : (NoMetro.normalizeCore raw.data).getLast? = some 'Y' := by
      rw [← hv, List.getLast?_append_of_ne_nil v (by decide)]
      rfl
    exact isSuffixOf_false_of_getLast_ne _ _ 'X' 'Y' (by decide) hm (by decide)
  · rw [hdata]
    exact hcty
  · have hne3 : (⟨NoMetro.normalizeCore raw.data⟩ : String) ≠ "" := by
      intro h0
      exact hne2 (congrArg String.data h0)
    have hstr : NoMetro.normalizeCountyName ⟨NoMetro.normalizeCore raw.data⟩
        = ⟨NoMetro.normalizeCore raw.data⟩ := by
      rw [NoMetro.normalizeCountyName, if_neg hne3]
      show (⟨NoMetro.normalizeCore
        (NoMetro.normalizeCore raw.data)⟩ : String) = _
      rw [normalizeCore_fix _ hadj hsp hhead hlast hup hcty]
    rw [hval, hstr]

/-- C4 witness: `"travis, tx"` has non-empty core `"TRAVIS"`, and its
normalisation `"TRAVIS COUNTY"` satisfies every amended conjunct. -/
theorem c4_normalize_county_witness :
    NoMetro.stripStateSuffix
        (NoMetro.collapseAux false
          ((trimChars ("travis, tx").data).map jsToUpper)) ≠ [] ∧
    ((NoMetro.normalizeCountyName "travis, tx").data.map jsToUpper
        = (NoMetro.normalizeCountyName "travis, tx").data ∧
     hasDoubleSpace (NoMetro.normalizeCountyName "travis, tx").data
        = false ∧
     (", TX".data).isSuffixOf
        (NoMetro.normalizeCountyName "travis, tx").data = false ∧
     (" COUNTY".data).isSuffixOf
        (NoMetro.normalizeCountyName "travis, tx").data = true ∧
     NoMetro.normalizeCountyName (NoMetro.normalizeCountyName "travis, tx")
        = NoMetro.normalizeCountyName "travis, tx") :=
  ⟨by decide, c4_normalize_county "travis, tx" (by decide)⟩
